import Mathlib

/-!
Verification development for the Quantum-Store core pipeline.

The definitions below are shallow embeddings of the Python source:
  backend/processors/json_processor.py  (schema inference, sampling)
  backend/classifier.py                 (PDF / JSON rule trees)
  backend/utils/file_utils.py           (type resolution)
  backend/rules/rules.py                (similarity grouping)
  backend/storage/store.py              (group index updates)

Python dicts holding JSON data are modelled as ordered association
lists, Python floats as rationals, and Python byte strings as lists of
natural numbers below 256.  Code that can raise an exception is
modelled with Option.
-/

/-- JSON value model: the shapes json.load can return
(Python None / bool / int / float / str / list / dict).
Dicts preserve insertion order, hence the association list. -/
inductive JVal where
  | jnull : JVal
  | jbool : Bool → JVal
  | jint : Int → JVal
  | jfloat : ℚ → JVal
  | jstr : String → JVal
  | jarr : List JVal → JVal
  | jobj : List (String × JVal) → JVal
deriving Repr

/-- Decidable equality for JVal (nested inductive, so written by hand). -/
def JVal.beq : JVal → JVal → Bool
  | .jnull, .jnull => true
  | .jbool a, .jbool b => a == b
  | .jint a, .jint b => a == b
  | .jfloat a, .jfloat b => a == b
  | .jstr a, .jstr b => a == b
  | .jarr a, .jarr b => beqList a b
  | .jobj a, .jobj b => beqFields a b
  | _, _ => false
where
  beqList : List JVal → List JVal → Bool
    | [], [] => true
    | x :: xs, y :: ys => x.beq y && beqList xs ys
    | _, _ => false
  beqFields : List (String × JVal) → List (String × JVal) → Bool
    | [], [] => true
    | (k, x) :: xs, (l, y) :: ys => k == l && x.beq y && beqFields xs ys
    | _, _ => false

/-- isinstance(item, dict) -/
def JVal.isObj : JVal → Bool
  | .jobj _ => true
  | _ => false

mutual
def JVal.beq_refl : (v : JVal) → v.beq v = true
  | .jnull => rfl
  | .jbool b => by simp [JVal.beq]
  | .jint n => by simp [JVal.beq]
  | .jfloat q => by simp [JVal.beq]
  | .jstr s => by simp [JVal.beq]
  | .jarr xs => by simp [JVal.beq]; exact JVal.beqList_refl xs
  | .jobj fs => by simp [JVal.beq]; exact JVal.beqFields_refl fs

def JVal.beqList_refl : (xs : List JVal) → JVal.beq.beqList xs xs = true
  | [] => rfl
  | x :: xs => by
      simp [JVal.beq.beqList]
      exact ⟨JVal.beq_refl x, JVal.beqList_refl xs⟩

def JVal.beqFields_refl : (fs : List (String × JVal)) → JVal.beq.beqFields fs fs = true
  | [] => rfl
  | (k, v) :: fs => by
      simp [JVal.beq.beqFields]
      exact ⟨JVal.beq_refl v, JVal.beqFields_refl fs⟩
end

mutual
def JVal.eq_of_beq : {v w : JVal} → v.beq w = true → v = w
  | .jnull, .jnull, _ => rfl
  | .jbool a, .jbool b, h => by simp [JVal.beq] at h; simp [h]
  | .jint a, .jint b, h => by simp [JVal.beq] at h; simp [h]
  | .jfloat a, .jfloat b, h => by simp [JVal.beq] at h; simp [h]
  | .jstr a, .jstr b, h => by simp [JVal.beq] at h; simp [h]
  | .jarr a, .jarr b, h => by
      simp [JVal.beq] at h
      exact congrArg JVal.jarr (JVal.eqList_of_beq h)
  | .jobj a, .jobj b, h => by
      simp [JVal.beq] at h
      exact congrArg JVal.jobj (JVal.eqFields_of_beq h)

def JVal.eqList_of_beq : {xs ys : List JVal} → JVal.beq.beqList xs ys = true → xs = ys
  | [], [], _ => rfl
  | x :: xs, y :: ys, h => by
      simp [JVal.beq.beqList] at h
      have h1 := JVal.eq_of_beq h.1
      have h2 := JVal.eqList_of_beq h.2
      rw [h1, h2]

def JVal.eqFields_of_beq : {xs ys : List (String × JVal)} →
    JVal.beq.beqFields xs ys = true → xs = ys
  | [], [], _ => rfl
  | (k, x) :: xs, (l, y) :: ys, h => by
      simp [JVal.beq.beqFields] at h
      have h1 := JVal.eq_of_beq h.1.2
      have h2 := JVal.eqFields_of_beq h.2
      rw [h.1.1, h1, h2]
end

instance : DecidableEq JVal := fun v w =>
  if h : v.beq w = true then .isTrue (JVal.eq_of_beq h)
  else .isFalse (fun he => h (he ▸ JVal.beq_refl v))

/-! ## json_processor.py: key normalization and type inference -/

/-- Characters matched by the Python regex class [\s-] (ASCII range). -/
def isSpaceDash (c : Char) : Bool :=
  c = ' ' || c = '\t' || c = '\n' || c = '\r' || c = '\x0b' || c = '\x0c' || c = '-'

/-- re.sub with pattern [\s-]+ and replacement _ , tracked with a flag
saying whether the previous character belonged to a run: the first
character of every maximal whitespace/hyphen run becomes a single
underscore, the rest of the run is dropped. -/
def subSpaceDashAux (inRun : Bool) : List Char → List Char
  | [] => []
  | c :: cs =>
    if isSpaceDash c then
      if inRun then subSpaceDashAux true cs
      else '_' :: subSpaceDashAux true cs
    else c :: subSpaceDashAux false cs

def subSpaceDash (cs : List Char) : List Char := subSpaceDashAux false cs

/-- JSONProcessor._normalize_key: lowercase, then collapse runs of
whitespace and hyphens to underscores (ASCII model of str.lower). -/
def normalize_key (key : String) : String :=
  String.mk (subSpaceDash (key.data.map Char.toLower))

/-- re.match prefix check for the date pattern 4 digits, dash, 2 digits,
dash, 2 digits. -/
def matchDate1 : List Char → Bool
  | a :: b :: c :: d :: e :: f :: g :: h :: i :: j :: _ =>
    a.isDigit && b.isDigit && c.isDigit && d.isDigit && e = '-' &&
    f.isDigit && g.isDigit && h = '-' && i.isDigit && j.isDigit
  | _ => false

/-- re.match prefix check for 2 digits, slash, 2 digits, slash, 4 digits. -/
def matchDate2 : List Char → Bool
  | a :: b :: c :: d :: e :: f :: g :: h :: i :: j :: _ =>
    a.isDigit && b.isDigit && c = '/' && d.isDigit && e.isDigit &&
    f = '/' && g.isDigit && h.isDigit && i.isDigit && j.isDigit
  | _ => false

/-- re.match prefix check for the ISO timestamp pattern
4 digits dash 2 digits dash 2 digits T 2 digits colon 2 digits colon 2 digits. -/
def matchDate3 : List Char → Bool
  | a :: b :: c :: d :: e :: f :: g :: h :: i :: j :: t :: k :: l :: m :: n :: o :: p :: q :: r :: _ =>
    a.isDigit && b.isDigit && c.isDigit && d.isDigit && e = '-' &&
    f.isDigit && g.isDigit && h = '-' && i.isDigit && j.isDigit &&
    t = 'T' && k.isDigit && l.isDigit && m = ':' && n.isDigit && o.isDigit &&
    p = ':' && q.isDigit && r.isDigit
  | _ => false

/-- JSONProcessor._is_date: any of the three date patterns matches at the
start of the string. -/
def is_date (s : String) : Bool :=
  matchDate1 s.data || matchDate2 s.data || matchDate3 s.data

/-- JSONProcessor._infer_type over the JVal model (bool is checked before
int, mirroring the isinstance order in the source). -/
def infer_type : JVal → String
  | .jnull => "null"
  | .jbool _ => "bool"
  | .jint _ => "int"
  | .jfloat _ => "float"
  | .jstr s => if is_date s then "date" else "string"
  | .jarr _ => "array"
  | .jobj _ => "object"

/-! ## json_processor.py: record simplification and sampling -/

mutual
/-- JSONProcessor._simplify_record: non-dicts are returned unchanged; at
current_depth at or above max_depth a dict becomes the truncation marker;
otherwise the first 20 fields are kept (values simplified) and a
truncated-fields marker is appended when more than 20 fields existed. -/
def simplify_record (max_depth current_depth : Nat) : JVal → JVal
  | .jobj fields =>
    if max_depth ≤ current_depth then
      .jobj [("__truncated__", .jstr "nested structure")]
    else
      let simplified := simplifyFields max_depth current_depth 20 fields
      let extra : List (String × JVal) :=
        if 20 < fields.length then
          [("__truncated_fields__", .jint ((fields.length : Int) - 20))]
        else []
      .jobj (simplified ++ extra)
  | v => v

/-- The loop over list(record.items())[:20] in _simplify_record: nested
dicts recurse one level deeper, lists longer than 5 keep 5 entries plus a
string marker (entries themselves untouched), strings longer than 200
characters are cut to 200 plus an ellipsis, all else passes through. -/
def simplifyFields (max_depth current_depth : Nat) : Nat → List (String × JVal) → List (String × JVal)
  | _, [] => []
  | 0, _ :: _ => []
  | n + 1, (k, v) :: rest =>
    let v' : JVal :=
      match v with
      | .jobj g => simplify_record max_depth (current_depth + 1) (.jobj g)
      | .jarr xs =>
        if 5 < xs.length then
          .jarr (xs.take 5 ++ [.jstr ("... " ++ toString (xs.length - 5) ++ " more items")])
        else .jarr xs
      | .jstr s =>
        if 200 < s.length then .jstr (String.mk (s.data.take 200) ++ "...") else .jstr s
      | other => other
    (k, v') :: simplifyFields max_depth current_depth n rest
end

/-- Indices visited by range(0, len, step) for positive step. -/
def strideIndices (len step : Nat) : List Nat :=
  (List.range len).filter (fun i => i % step = 0)

/-- The sampling loop of _extract_samples: walk the stride indices, stop
once the sample list reaches sample_size, keep only dict records. -/
def strideCollect (data : List JVal) (cap : Nat) : List Nat → List JVal → List JVal
  | [], acc => acc
  | i :: rest, acc =>
    if cap ≤ acc.length then acc
    else
      match data.get? i with
      | some v =>
        if v.isObj then strideCollect data cap rest (acc ++ [simplify_record 2 0 v])
        else strideCollect data cap rest acc
      | none => strideCollect data cap rest acc

/-- JSONProcessor._extract_samples.  For sample_size 0 Python's
range(0, len, 0) would raise ValueError; the function is only ever called
with sample_size 50. -/
def extract_samples (data : List JVal) (sample_size : Nat) : List JVal :=
  if data.length ≤ sample_size then
    (data.filter JVal.isObj).map (simplify_record 2 0)
  else
    let step := data.length / sample_size
    (strideCollect data sample_size (strideIndices data.length step) []).take sample_size

/-! ## json_processor.py: schema inference -/

/-- collections.Counter over type names, preserving first-insertion order. -/
abbrev Counter := List (String × Nat)

/-- Counter increment (field_types[normalized_key][t] += 1). -/
def counterAdd : Counter → String → Counter
  | [], t => [(t, 1)]
  | (k, n) :: rest, t =>
    if k = t then (k, n + 1) :: rest else (k, n) :: counterAdd rest t

/-- sum(type_counts.values()) -/
def counterTotal (c : Counter) : Nat := (c.map (·.2)).sum

/-- type_counts.most_common(1)[0]: the entry with the largest count, first
encountered winning ties (Counter keeps first-insertion order and
heapq.nlargest is stable).  none corresponds to the IndexError Python
would raise on an empty counter; build_schema_from_types never reaches it
because every key in all_keys has at least one observation. -/
def mostCommon : Counter → Option (String × Nat)
  | [] => none
  | e :: rest => some (rest.foldl (fun best x => if best.2 < x.2 then x else best) e)

/-- defaultdict(Counter) keyed by normalized field name. -/
abbrev FieldTypes := List (String × Counter)

/-- field_types[key][t] += 1 -/
def ftAdd : FieldTypes → String → String → FieldTypes
  | [], key, t => [(key, counterAdd [] t)]
  | (k, c) :: rest, key, t =>
    if k = key then (k, counterAdd c t) :: rest else (k, c) :: ftAdd rest key t

/-- field_types[key] (empty counter when the key was never seen). -/
def ftGet (ft : FieldTypes) (key : String) : Counter :=
  ((ft.find? (fun e => e.1 = key)).map (·.2)).getD []

/-- The all_keys set of (normalized_key, original_key) pairs, modelled as
a duplicate-free list in first-insertion order. -/
abbrev KeySet := List (String × String)

/-- all_keys.add((normalized_key, key)) -/
def ksAdd (ks : KeySet) (p : String × String) : KeySet :=
  if p ∈ ks then ks else ks ++ [p]

/-- The per-field loop shared by _infer_schema and _stream_analyze_array:
for each field of a record, register the key pair and bump the type
counter for the inferred value type. -/
def analyzeFields (st : KeySet × FieldTypes) (fields : List (String × JVal)) :
    KeySet × FieldTypes :=
  fields.foldl
    (fun st kv =>
      let nk := normalize_key kv.1
      (ksAdd st.1 (nk, kv.1), ftAdd st.2 nk (infer_type kv.2)))
    st

/-- Per-record step: non-dict records are skipped and do not touch the
accumulators. -/
def analyzeRecord (st : KeySet × FieldTypes) : JVal → KeySet × FieldTypes
  | .jobj fields => analyzeFields st fields
  | _ => st

/-- One field entry of the inferred schema. -/
structure FieldInfo where
  original_keys : List String
  type : String
  confidence : ℚ
  type_distribution : Counter
  presence : ℚ
deriving Repr, DecidableEq

/-- Ordered-dict insertion used for schema[normalized_key] = info:
overwrite in place when the key exists, else append. -/
def schemaInsert (s : List (String × FieldInfo)) (k : String) (v : FieldInfo) :
    List (String × FieldInfo) :=
  if s.any (fun e => e.1 = k) then
    s.map (fun e => if e.1 = k then (k, v) else e)
  else s ++ [(k, v)]

/-- The loop body of _build_schema_from_types for one normalized key:
type histogram, its mode (most_common), confidence and presence.  none
corresponds to the IndexError on an empty counter. -/
def build_schema_entry (all_keys : KeySet) (field_types : FieldTypes)
    (total_records : Nat) (nk : String) : Option FieldInfo :=
  let type_counts := ftGet field_types nk
  let total := counterTotal type_counts
  match mostCommon type_counts with
  | none => none
  | some mc =>
    some
      { original_keys := (all_keys.filter (fun e => e.1 = nk)).map (·.2)
        type := mc.1
        confidence := if 0 < total then mkRat mc.2 total else 0
        type_distribution := type_counts
        presence := if 0 < total_records then mkRat total total_records else 0 }

/-- JSONProcessor._build_schema_from_types.  A key occurring with several
original spellings is assigned several times with the identical value,
exactly as in the Python loop over the all_keys set. -/
def build_schema_from_types (all_keys : KeySet) (field_types : FieldTypes)
    (total_records : Nat) : List (String × FieldInfo) :=
  all_keys.foldl
    (fun schema kv =>
      match build_schema_entry all_keys field_types total_records kv.1 with
      | none => schema
      | some info => schemaInsert schema kv.1 info)
    []

/-- JSONProcessor._infer_schema: accumulate key set and type counters over
every record of the array, then build the schema with the full array
length as the record total. -/
def infer_schema (data : List JVal) : List (String × FieldInfo) :=
  let st := data.foldl analyzeRecord ([], [])
  build_schema_from_types st.1 st.2 data.length

/-! ## json_processor.py: inconsistency detection -/

/-- One entry of the inconsistencies list.  Mixed-type entries carry the
field name and the type distribution; synonym entries carry the pair of
field names. -/
structure Inconsistency where
  kind : String
  field : Option String
  fields : Option (List String)
  details : Option Counter
  severity : String
deriving Repr, DecidableEq

/-- The fixed synonym table of _are_synonyms. -/
def synonymTable : List (String × String) :=
  [("id", "identifier"), ("name", "title"), ("desc", "description"),
   ("img", "image"), ("pic", "picture"), ("created", "created_at"),
   ("updated", "updated_at")]

/-- Substring scan: sub occurs (contiguously) somewhere in s. -/
def listInfix (sub : List Char) : List Char → Bool
  | [] => sub.isEmpty
  | c :: rest => sub.isPrefixOf (c :: rest) || listInfix sub rest

/-- Python substring containment (sub in s). -/
def strContains (s sub : String) : Bool := listInfix sub.data s.data

/-- JSONProcessor._are_synonyms: some table pair is contained in the two
keys in either orientation. -/
def are_synonyms (key1 key2 : String) : Bool :=
  synonymTable.any (fun p =>
    (strContains key1 p.1 && strContains key2 p.2) ||
    (strContains key1 p.2 && strContains key2 p.1))

/-- The nested loops of _detect_synonyms over the schema keys in order:
all pairs with the first key earlier in the list. -/
def synPairs : List String → List (List String)
  | [] => []
  | k1 :: rest => (rest.filter (are_synonyms k1)).map (fun k2 => [k1, k2]) ++ synPairs rest

/-- JSONProcessor._detect_inconsistencies_from_samples: one mixed_types
entry per schema field with confidence below 1, then one
potential_synonyms entry per synonym pair.  The samples argument is
unused in the source as well. -/
def detect_inconsistencies_from_samples (samples : List JVal)
    (schema : List (String × FieldInfo)) : List Inconsistency :=
  let _ := samples
  let mixed := (schema.filter (fun e => e.2.confidence < 1)).map
    (fun e =>
      { kind := "mixed_types", field := some e.1, fields := none
        details := some e.2.type_distribution, severity := "medium" })
  let syns := (synPairs (schema.map (·.1))).map
    (fun g =>
      { kind := "potential_synonyms", field := none, fields := some g
        details := none, severity := "low" })
  mixed ++ syns

/-! ## json_processor.py: eager and streaming array analysis -/

/-- The analysis result for a JSON array (statistics are a function of
samples and schema and are not modelled; the stddev entry involves a real
square root). For an empty array the Python result dict omits the
sampled_count and is_large_file keys, modelled here as 0 and false. -/
structure AnalyzeResult where
  record_count : Nat
  sampled_count : Nat
  schema : List (String × FieldInfo)
  samples : List JVal
  inconsistencies : List Inconsistency
  is_large_file : Bool
deriving Repr, DecidableEq

/-- JSONProcessor._analyze_array (eager mode): schema from all records,
samples bounded by MAX_SAMPLE_SIZE = 50. -/
def analyze_array (data : List JVal) : AnalyzeResult :=
  if data.isEmpty then
    { record_count := 0, sampled_count := 0, schema := [], samples := []
      inconsistencies := [], is_large_file := false }
  else
    let schema := infer_schema data
    let samples := extract_samples data 50
    { record_count := data.length
      sampled_count := samples.length
      schema := schema
      samples := samples
      inconsistencies := detect_inconsistencies_from_samples samples schema
      is_large_file := false }

/-- Loop state of _stream_analyze_array. -/
structure StreamState where
  record_count : Nat
  samples : List JVal
  all_keys : KeySet
  field_types : FieldTypes

/-- The item loop of _stream_analyze_array: count the record, collect a
simplified sample while fewer than MAX_SAMPLE_SIZE = 50 are held, update
the schema accumulators, and once at least 1000 records are seen with a
full sample list, add the count of the remaining items and stop without
analyzing them. -/
def streamLoop : List JVal → StreamState → StreamState
  | [], st => st
  | item :: rest, st =>
    let rc := st.record_count + 1
    let samples :=
      if st.samples.length < 50 && item.isObj then
        st.samples ++ [simplify_record 2 0 item]
      else st.samples
    let st2 := analyzeRecord (st.all_keys, st.field_types) item
    if 1000 ≤ rc && 50 ≤ samples.length then
      { record_count := rc + rest.length, samples := samples
        all_keys := st2.1, field_types := st2.2 }
    else
      streamLoop rest
        { record_count := rc, samples := samples
          all_keys := st2.1, field_types := st2.2 }

/-- JSONProcessor._stream_analyze_array (streaming mode): schema built
from the analyzed records with min(record_count, 1000) as the record
total, samples capped at 50. -/
def stream_analyze_array (data : List JVal) : AnalyzeResult :=
  let st := streamLoop data ⟨0, [], [], []⟩
  let schema := build_schema_from_types st.all_keys st.field_types (min st.record_count 1000)
  { record_count := st.record_count
    sampled_count := st.samples.length
    schema := schema
    samples := st.samples.take 50
    inconsistencies := detect_inconsistencies_from_samples st.samples schema
    is_large_file := true }

/-! ## json_processor.py: regular (non-streaming) entry -/

/-- Ordered-dict insertion, generic in the value type. -/
def dictInsert {α : Type} (s : List (String × α)) (k : String) (v : α) :
    List (String × α) :=
  if s.any (fun e => e.1 = k) then
    s.map (fun e => if e.1 = k then (k, v) else e)
  else s ++ [(k, v)]

/-- One field entry of the single-object schema of _analyze_object (its
dict shape differs from the array schema: a single original_key). -/
structure ObjFieldInfo where
  original_key : String
  type : String
  confidence : ℚ
  presence : ℚ
deriving Repr, DecidableEq

/-- Result of _analyze_regular: a parse failure or scalar input yields the
error dict, an array yields the array analysis, an object the object
analysis. -/
inductive RegularResult where
  | failure : String → RegularResult
  | arrayResult : AnalyzeResult → RegularResult
  | objectResult : List (String × ObjFieldInfo) → JVal → RegularResult
deriving Repr, DecidableEq

/-- JSONProcessor._analyze_object: per-key schema with confidence and
presence 1.0, plus a simplified copy of the object. -/
def analyze_object (data : List (String × JVal)) : RegularResult :=
  .objectResult
    (data.foldl
      (fun sch kv =>
        dictInsert sch (normalize_key kv.1)
          { original_key := kv.1, type := infer_type kv.2
            confidence := 1, presence := 1 })
      [])
    (simplify_record 2 0 (.jobj data))

/-- JSONProcessor._analyze_regular.  The json.load call is Python stdlib;
its outcome (a parsed value, or the exception message of a parse failure)
is the argument.  A parse failure is caught and returned as the error
dict, never re-raised. -/
def analyze_regular (parsed : Except String JVal) : RegularResult :=
  match parsed with
  | .error e => .failure ("Failed to parse JSON: " ++ e)
  | .ok (.jarr items) => .arrayResult (analyze_array items)
  | .ok (.jobj fields) => analyze_object fields
  | .ok _ => .failure "JSON must be an object or array"

/-! ## classifier.py: classification records and the PDF rule tree -/

/-- The classification record produced by AdvancedClassifier. -/
structure Classification where
  type : String
  category : String
  subcategories : List String
  confidence : ℚ
deriving Repr, DecidableEq

/-- ASCII model of str.lower on a whole string. -/
def strLower (s : String) : String := String.mk (s.data.map Char.toLower)

/-- The PDF feature map with the defaults that _classify_pdf's
preview.get calls apply.  The image_ratio feature is named
imageRatioVal here. -/
structure PdfPreview where
  is_scanned : Bool := false
  has_forms : Bool := false
  imageRatioVal : ℚ := 0
  text_length : Int := 0
  page_count : Int := 1
  text_content : String := ""
deriving Repr, DecidableEq

/-- Keyword table of _is_pdf_receipt. -/
def receipt_keywords : List String :=
  ["total", "subtotal", "tax", "receipt", "invoice",
   "payment", "transaction", "qty", "amount", "cashier"]

/-- AdvancedClassifier._is_pdf_receipt: at least 3 receipt keywords occur
in the lowercased text. -/
def is_pdf_receipt (p : PdfPreview) : Bool :=
  let text := strLower p.text_content
  3 ≤ (receipt_keywords.filter (fun kw => strContains text kw)).length

/-- AdvancedClassifier._is_pdf_slides: average text per page below 500
(0 when page_count is not positive). -/
def is_pdf_slides (p : PdfPreview) : Bool :=
  let avg : ℚ := if 0 < p.page_count then mkRat p.text_length p.page_count.toNat else 0
  avg < 500

/-- AdvancedClassifier._is_pdf_ebook: at least 50 pages and more than
1500 characters of text per page on average. -/
def is_pdf_ebook (p : PdfPreview) : Bool :=
  let avg : ℚ := if 0 < p.page_count then mkRat p.text_length p.page_count.toNat else 0
  50 ≤ p.page_count && 1500 < avg

/-- Indicator table of _has_tables. -/
def table_indicators : List String :=
  ["table", "row", "column", "header", "|", "┃", "│", "─", "━"]

/-- AdvancedClassifier._has_tables: at least 2 indicators occur in the
lowercased text. -/
def has_tables (p : PdfPreview) : Bool :=
  let text := strLower p.text_content
  2 ≤ (table_indicators.filter (fun ind => strContains text ind)).length

/-- Python int() truncation toward zero on a rational. -/
def pyInt (q : ℚ) : Int := if 0 ≤ q then q.floor else q.ceil

/-- AdvancedClassifier._classify_pdf.  In the source the category local
variable is only assigned inside the branches; in the branch for
page_count at most 2 with little text whose receipt test fails, and in
the branch for page_count at least 50 whose ebook test fails, no
assignment happens and the final return raises UnboundLocalError.
Those two paths are modelled as none. -/
def classify_pdf (preview : Option PdfPreview) : Option Classification :=
  match preview with
  | none => some { type := "pdf", category := "pdf_document", subcategories := [], confidence := mkRat 3 10 }
  | some p =>
    if p.has_forms then
      some { type := "pdf", category := "pdf_form"
             subcategories := ["interactive_form"], confidence := mkRat 95 100 }
    else if p.is_scanned then
      some { type := "pdf", category := "pdf_scanned"
             subcategories := ["ocr_applied"], confidence := mkRat 9 10 }
    else if p.page_count ≤ 2 && p.text_length < 3000 then
      if is_pdf_receipt p then
        some { type := "pdf", category := "pdf_receipt"
               subcategories := ["short_document"], confidence := mkRat 85 100 }
      else none
    else if 5 ≤ p.page_count && mkRat 3 10 < p.imageRatioVal then
      if is_pdf_slides p then
        some { type := "pdf", category := "pdf_slides"
               subcategories := ["pages_" ++ toString p.page_count], confidence := mkRat 8 10 }
      else
        some { type := "pdf", category := "pdf_presentation"
               subcategories := [], confidence := mkRat 75 100 }
    else if 50 ≤ p.page_count then
      if is_pdf_ebook p then
        some { type := "pdf", category := "pdf_ebook_layout"
               subcategories := ["long_document"], confidence := mkRat 8 10 }
      else none
    else if has_tables p then
      some { type := "pdf", category := "pdf_with_tables"
             subcategories := ["structured_data"], confidence := mkRat 75 100 }
    else if mkRat 4 10 < p.imageRatioVal then
      some { type := "pdf", category := "pdf_with_images"
             subcategories := ["images_" ++ toString (pyInt (p.imageRatioVal * 100)) ++ "pct"]
             confidence := mkRat 75 100 }
    else
      some { type := "pdf", category := "pdf_text_document"
             subcategories := ["primarily_text"], confidence := mkRat 7 10 }

/-! ## classifier.py: the JSON rule tree -/

/-- The JSON feature map with the defaults that _classify_json's
preview.get calls apply.  The nested_ratio feature is named
nestedRatioVal; has_schema models the truthiness of
preview.get("schema"). -/
structure JsonPreview where
  parse_error : Bool := false
  shape : String := "unknown"
  field_consistency : ℚ := 0
  max_depth : Int := 0
  nestedRatioVal : ℚ := 0
  record_count : Int := 0
  has_schema : Bool := false
deriving Repr, DecidableEq

/-- AdvancedClassifier._classify_json. -/
def classify_json (preview : Option JsonPreview) : Classification :=
  match preview with
  | none =>
    { type := "json", category := "json_unstructured", subcategories := [], confidence := mkRat 3 10 }
  | some p =>
    if p.parse_error then
      { type := "json", category := "json_invalid"
        subcategories := ["json_parse_error"], confidence := 1 }
    else if p.shape = "array_of_objects" then
      if mkRat 95 100 ≤ p.field_consistency && p.max_depth ≤ 2 && p.nestedRatioVal < mkRat 3 10 then
        { type := "json", category := "json_flat_structured"
          subcategories := ["sql_ready"] ++ (if p.has_schema then ["has_schema"] else [])
          confidence := mkRat 95 100 }
      else if mkRat 7 10 ≤ p.field_consistency then
        { type := "json", category := "json_semistructured"
          subcategories := ["partial_schema"], confidence := mkRat 8 10 }
      else
        { type := "json", category := "json_unstructured"
          subcategories := [], confidence := mkRat 7 10 }
    else if 3 < p.max_depth || mkRat 1 2 < p.nestedRatioVal then
      { type := "json", category := "json_nested"
        subcategories := ["depth_" ++ toString p.max_depth], confidence := mkRat 85 100 }
    else if p.shape = "scalar" || p.shape = "array_of_scalars" || p.shape = "single_object" then
      if p.max_depth ≤ 1 then
        { type := "json", category := "json_flat_structured"
          subcategories := [], confidence := mkRat 75 100 }
      else
        { type := "json", category := "json_nested"
          subcategories := [], confidence := mkRat 7 10 }
    else
      { type := "json", category := "json_unstructured"
        subcategories := [], confidence := mkRat 6 10 }

/-- Glue observed in the pipeline: the analysis dict of a parse failure
holds only the error key, so when it is used as the preview every
preview.get in _classify_json falls back to its default (in particular
parse_error is absent and reads as False, and shape reads as unknown). -/
def previewOfParseFailure (msg : String) : JsonPreview :=
  let _ := msg
  {}

/-! ## utils/file_utils.py: type resolution -/

/-- os.path.basename (POSIX): everything after the last slash. -/
def basenameChars (cs : List Char) : List Char :=
  cs.foldl (fun acc c => if c = '/' then [] else acc ++ [c]) []

/-- The extension part of os.path.splitext on a basename: from the last
dot, unless every character before that dot is itself a dot (so dotfiles
like .bashrc have no extension). -/
def splitextExt (cs : List Char) : List Char :=
  match (cs.enum.filter (fun e => e.2 = '.')).getLast? with
  | none => []
  | some e =>
    if (cs.take e.1).any (fun c => c ≠ '.') then cs.drop e.1 else []

/-- file_utils.normalize_extension: basename, splitext, lowercase, strip
the leading dot. -/
def normalize_extension (filename : String) : String :=
  String.mk (((splitextExt (basenameChars filename.data)).map Char.toLower).dropWhile (· = '.'))

/-- Magic-byte method of detect_file_type_comprehensive (METHOD 1): the
fixed signature table, then the brace/bracket heuristic after stripping
ASCII whitespace.  none when no signature fires (including the case of
missing or empty leading bytes, which the Python truthiness test skips). -/
def magicDetect (file_bytes : Option (List Nat)) : Option String :=
  match file_bytes with
  | none => none
  | some bs =>
    if bs.isEmpty then none
    else if [37, 80, 68, 70].isPrefixOf bs then some "pdf"
    else if [137, 80, 78, 71, 13, 10, 26, 10].isPrefixOf bs then some "image"
    else if [255, 216, 255].isPrefixOf bs then some "image"
    else if [71, 73, 70, 56, 55, 97].isPrefixOf bs || [71, 73, 70, 56, 57, 97].isPrefixOf bs then
      some "image"
    else
      let stripped := bs.dropWhile (fun b => b ∈ [32, 9, 10, 13, 11, 12])
      if stripped.head? = some 123 || stripped.head? = some 91 then some "json"
      else none

/-- file_utils.detect_file_type_comprehensive.  The guess_type argument
is the Python stdlib mimetypes.guess_type lookup (METHOD 4), treated as
an uninterpreted external table; none covers its None result and
some covers a returned MIME string (the empty string is falsy in the
source and yields unknown). -/
def detect_file_type_comprehensive (filename : String) (mime_type : Option String)
    (file_bytes : Option (List Nat)) (guess_type : String → Option String) : String :=
  match magicDetect file_bytes with
  | some t => t
  | none =>
    let ext := normalize_extension filename
    if ext = "json" then "json"
    else if ext = "pdf" then "pdf"
    else if ext ∈ ["jpg", "jpeg", "png", "gif", "bmp", "webp", "tiff", "tif", "svg"] then "image"
    else if ext ∈ ["txt", "md", "csv", "log", "rtf"] then "text"
    else if ext ∈ ["mp4", "avi", "mov", "mkv", "webm", "flv", "wmv"] then "video"
    else
      let mimeRes : Option String :=
        match mime_type with
        | some m =>
          if m = "" then none
          else
            let ml := strLower m
            if strContains ml "pdf" then some "pdf"
            else if ml.startsWith "image/" then some "image"
            else if ml.startsWith "text/" then some "text"
            else if ml.startsWith "video/" then some "video"
            else if ml.startsWith "application/json" then some "json"
            else none
        | none => none
      match mimeRes with
      | some t => t
      | none =>
        match guess_type filename with
        | some gm =>
          if gm = "" then "unknown"
          else if strContains gm "pdf" then "pdf"
          else if gm.startsWith "image/" then "image"
          else if gm.startsWith "text/" then "text"
          else if gm.startsWith "video/" then "video"
          else if gm.startsWith "application/json" then "json"
          else "unknown"
        | none => "unknown"

/-! ## rules/rules.py: similarity grouping -/

/-- One entry of a tfidf similarities list ({document_index, similarity}
dicts; both keys read with .get). -/
structure TfidfSim where
  document_index : Option Int
  similarity : Option ℚ
deriving Repr, DecidableEq

/-- The fields of a stored file record that the grouping engine reads.
tfidf none models a missing or empty (falsy) tfidf dict; phash none a
missing phash key. -/
structure RuleItem where
  id : Option Int
  phash : Option String
  tfidf : Option (List TfidfSim)
deriving Repr, DecidableEq

/-- RuleEngine._phash_similarity: 0.0 for hashes of different length,
otherwise 1 minus the normalized Hamming distance.  For two equal-length
hashes Python zips the characters; on two empty hashes it would divide by
zero, a case the grouping loops never reach because falsy hashes are
skipped. -/
def phash_similarity (phash1 phash2 : String) : ℚ :=
  if phash1.length ≠ phash2.length then 0
  else
    let hamming := ((phash1.data.zip phash2.data).filter (fun cc => cc.1 ≠ cc.2)).length
    1 - mkRat hamming phash1.length

/-- RuleEngine._text_similarity: look up file2's id among file1's
precomputed tfidf similarity entries; 0.0 when either tfidf blob is
missing/falsy or no entry matches. -/
def text_similarity (file1 file2 : RuleItem) : ℚ :=
  match file1.tfidf, file2.tfidf with
  | some sims1, some _ =>
    match sims1.find? (fun sim => sim.document_index == file2.id) with
    | some sim => sim.similarity.getD 0
    | none => 0
  | _, _ => 0

/-- The inner j loop of _group_by_phash as a filter: later items, not yet
processed, holding a truthy hash whose similarity with the seed hash
exceeds 0.9.  (Indices produced by enumerate are distinct, so a j
processed during the same scan can never be rescanned, and checking
membership in the processed set from before the scan is equivalent to the
source's mutation during the scan.) -/
def phashMembers (p1 : String) (rest : List (Nat × RuleItem)) (processed : List Nat) :
    List (Nat × RuleItem) :=
  rest.filter (fun jg =>
    !processed.contains jg.1 &&
      match jg.2.phash with
      | some p2 => !p2.isEmpty && decide (mkRat 9 10 < phash_similarity p1 p2)
      | none => false)

/-- The outer i loop of _group_by_phash over the enumerated file list:
skip processed or hash-less seeds, gather members above the similarity
threshold, emit the group only when it has more than one member. -/
def phashOuter : List (Nat × RuleItem) → List Nat → List (List (Nat × RuleItem))
  | [], _ => []
  | (i, f) :: rest, processed =>
    if i ∈ processed then phashOuter rest processed
    else
      match f.phash with
      | none => phashOuter rest processed
      | some p1 =>
        if p1.isEmpty then phashOuter rest processed
        else
          let members := phashMembers p1 rest processed
          let group := (i, f) :: members
          let processed2 := processed ++ [i] ++ members.map (·.1)
          if 1 < group.length then group :: phashOuter rest processed2
          else phashOuter rest processed2

/-- RuleEngine._group_by_phash over the enumerated input list, groups
carrying the enumerate index of each member. -/
def group_by_phash (image_files : List RuleItem) : List (List (Nat × RuleItem)) :=
  phashOuter image_files.enum []

/-- The inner j loop of _group_by_content as a filter (same index
reasoning as for phashMembers). -/
def contentMembers (f : RuleItem) (rest : List (Nat × RuleItem)) (processed : List Nat) :
    List (Nat × RuleItem) :=
  rest.filter (fun jg => !processed.contains jg.1 && decide (mkRat 7 10 < text_similarity f jg.2))

/-- The outer i loop of _group_by_content: every unprocessed item seeds a
candidate group; groups of size 1 are dropped. -/
def contentOuter : List (Nat × RuleItem) → List Nat → List (List (Nat × RuleItem))
  | [], _ => []
  | (i, f) :: rest, processed =>
    if i ∈ processed then contentOuter rest processed
    else
      let members := contentMembers f rest processed
      let group := (i, f) :: members
      let processed2 := processed ++ [i] ++ members.map (·.1)
      if 1 < group.length then group :: contentOuter rest processed2
      else contentOuter rest processed2

/-- RuleEngine._group_by_content over the enumerated input list. -/
def group_by_content (text_files : List RuleItem) : List (List (Nat × RuleItem)) :=
  contentOuter text_files.enum []

/-! ## storage/store.py: category group index -/

/-- The metadata fields add_file_to_group reads (after its .get defaults). -/
structure FileMeta where
  filename : String
  file_type : String
deriving Repr, DecidableEq

/-- One entry of a category index.json files list. -/
structure GroupEntry where
  file_id : String
  filename : String
  file_type : String
  added_at : String
deriving Repr, DecidableEq

/-- A category index.json document.  updated_at and file_count are absent
until the first actual append. -/
structure GroupIndex where
  category : String
  created_at : String
  files : List GroupEntry
  updated_at : Option String
  file_count : Option Nat
deriving Repr, DecidableEq

/-- LocalStore.add_file_to_group.  The stored index.json is the state
(none when the file does not exist).  get_metadata is the metadata store
lookup; now stands for the datetime.utcnow() timestamps of one call.
Missing metadata returns False with the state untouched; an id already in
the index returns True before anything is written; otherwise the entry is
appended and updated_at and file_count are refreshed. -/
def add_file_to_group (get_metadata : String → Option FileMeta) (now : String)
    (file_id category : String) (index0 : Option GroupIndex) :
    Bool × Option GroupIndex :=
  match get_metadata file_id with
  | none => (false, index0)
  | some md =>
    let index := index0.getD
      { category := category, created_at := now, files := []
        updated_at := none, file_count := none }
    if file_id ∈ index.files.map (·.file_id) then
      (true, index0)
    else
      let entry : GroupEntry :=
        { file_id := file_id, filename := md.filename
          file_type := md.file_type, added_at := now }
      let files := index.files ++ [entry]
      let index2 := { index with
        files := files
        updated_at := some now
        file_count := some files.length }
      (true, some index2)

/-! ## Auxiliary definitions used by the theorems -/

mutual
/-- Decidable size bounds actually guaranteed for a simplified record:
at most 21 fields per object (20 kept plus the truncated-fields marker),
objects at nesting depth 2 are exactly the truncation marker, arrays of
at most 6 entries (5 kept plus the marker string, entries themselves
unconstrained), strings at most 203 characters (200 plus the ellipsis). -/
def sampleBounds (d : Nat) : JVal → Bool
  | .jobj fields =>
    decide (fields.length ≤ 21) &&
    (!decide (2 ≤ d) || decide (fields = [("__truncated__", .jstr "nested structure")])) &&
    sampleBoundsFields (d + 1) fields
  | .jarr xs => decide (xs.length ≤ 6)
  | .jstr s => decide (s.length ≤ 203)
  | _ => true

/-- sampleBounds over the values of an object. -/
def sampleBoundsFields (d : Nat) : List (String × JVal) → Bool
  | [] => true
  | (_, v) :: rest => sampleBounds d v && sampleBoundsFields d rest
end

/-- How many keys of a record normalize to the given field name
(0 for non-dict records, which schema inference skips). -/
def recordKeyCount (nk : String) : JVal → Nat
  | .jobj fields => (fields.filter (fun kv => normalize_key kv.1 = nk)).length
  | _ => 0

/-- Total observations of a field across a record list: the number of
(record, key) pairs whose key normalizes to the field name. -/
def totalObservations (data : List JVal) (nk : String) : Nat :=
  (data.map (recordKeyCount nk)).sum

/-- A single record used by the streaming counterexample. -/
def c1rec : JVal := .jobj [("a", .jint 1)]

/-- The record appearing only beyond position 1000. -/
def c1last : JVal := .jobj [("a", .jint 1), ("b", .jint 2)]

/-- 1001 records: 1000 copies of c1rec followed by c1last, which carries
the extra field b. -/
def c1data : List JVal := List.replicate 1000 c1rec ++ [c1last]

/-- The streaming loop state after analyzing k copies of c1rec from the
initial state. -/
def c1st (k : Nat) : StreamState :=
  { record_count := k
    samples := List.replicate (min k 50) c1rec
    all_keys := if k = 0 then [] else [("a", "a")]
    field_types := if k = 0 then [] else [("a", [("int", k)])] }

/-- Three records where field bbb is present in two of three (presence
2/3, between 50% and 100%). -/
def c7data : List JVal :=
  [.jobj [("aaa", .jint 1), ("bbb", .jint 2)],
   .jobj [("aaa", .jint 3), ("bbb", .jint 4)],
   .jobj [("aaa", .jint 5)]]

/-- Metadata-less store paired with an index that already contains the
file id, for the add_file_to_group counterexample. -/
def c9index : GroupIndex :=
  { category := "cat", created_at := "t0"
    files := [{ file_id := "f1", filename := "a.txt", file_type := "text", added_at := "t0" }]
    updated_at := some "t0", file_count := some 1 }

/-! ## Theorems -/

/-- C5: for every combination of filename, declared MIME string and
available leading bytes (and any mimetypes table), type resolution is
total by construction and obeys the fixed priority signature first: when
the magic-byte method detects a type, detect_file_type_comprehensive
returns that type regardless of the extension or the MIME string. -/
theorem C5_signature_priority (filename : String) (mime_type : Option String)
    (file_bytes : Option (List Nat)) (guess_type : String → Option String)
    (t : String) (h : magicDetect file_bytes = some t) :
    detect_file_type_comprehensive filename mime_type file_bytes guess_type = t := by
  unfold detect_file_type_comprehensive
  rw [h]

/-- Witness for C5: a file whose leading bytes carry the PDF signature
but whose name, declared MIME type and guessed MIME type all say PNG
resolves to pdf. -/
theorem C5_signature_priority_witness :
    magicDetect (some [37, 80, 68, 70, 49]) = some "pdf" ∧
    detect_file_type_comprehensive "photo.png" (some "image/png")
      (some [37, 80, 68, 70, 49]) (fun _ => some "image/png") = "pdf" :=
  ⟨by decide,
   C5_signature_priority "photo.png" (some "image/png") (some [37, 80, 68, 70, 49])
     (fun _ => some "image/png") "pdf" (by decide)⟩

/-- C2 (code bug): _classify_pdf does not return a complete
classification record on every input.  For a preview with page_count 1
and no text (so the receipt branch is taken but its inner receipt test
fails) and for a preview with page_count 60 and little text (ebook branch
taken, ebook test fails) the category local variable is never assigned
and the final return raises UnboundLocalError, modelled as none. -/
theorem C2_classify_pdf_incomplete :
    classify_pdf (some { page_count := 1, text_length := 0, text_content := "" }) = none ∧
    classify_pdf (some { page_count := 60, text_length := 0, text_content := "" }) = none ∧
    classify_pdf (some { page_count := 7, imageRatioVal := mkRat 1 2, text_length := 100 }) =
      some { type := "pdf", category := "pdf_slides"
             subcategories := ["pages_7"], confidence := mkRat 8 10 } := by
  refine ⟨by decide, by decide, ?_⟩
  decide

/-- C6 (code bug): a malformed JSON input is caught and surfaced as the
distinguishable error-dict result (first conjunct), but classifying that
result does not give the invalid category at confidence 1.0: the error
dict carries no parse_error key, so _classify_json falls through to
json_unstructured at confidence 0.60 (second conjunct), while the
json_invalid branch only fires on a preview whose parse_error flag is
truthy, which no producer in the repository sets (third conjunct). -/
theorem C6_parse_error_classification :
    analyze_regular (.error "Expecting value: line 1 column 1 (char 0)") =
      .failure "Failed to parse JSON: Expecting value: line 1 column 1 (char 0)" ∧
    classify_json (some (previewOfParseFailure
        "Failed to parse JSON: Expecting value: line 1 column 1 (char 0)")) =
      { type := "json", category := "json_unstructured"
        subcategories := [], confidence := mkRat 3 5 } ∧
    classify_json (some { parse_error := true }) =
      { type := "json", category := "json_invalid"
        subcategories := ["json_parse_error"], confidence := 1 } := by
  refine ⟨rfl, by decide, by decide⟩

/-- C7 (amended): the inconsistency detector never emits missing_field
entries at any presence level; every entry it returns is either a
mixed_types entry (field with confidence below 1) or a
potential_synonyms entry. -/
theorem C7_no_missing_field_entries (samples : List JVal)
    (schema : List (String × FieldInfo)) (e : Inconsistency)
    (he : e ∈ detect_inconsistencies_from_samples samples schema) :
    e.kind = "mixed_types" ∨ e.kind = "potential_synonyms" := by
  simp only [detect_inconsistencies_from_samples, List.mem_append, List.mem_map] at he
  rcases he with ⟨x, -, rfl⟩ | ⟨x, -, rfl⟩
  · exact Or.inl rfl
  · exact Or.inr rfl

/-- Witness for C7: the detector run on a schema with one mixed-type
field returns exactly that mixed_types entry, whose kind satisfies the
theorem. -/
theorem C7_no_missing_field_entries_witness :
    ({ kind := "mixed_types", field := some "f", fields := none
       details := some [("int", 1), ("string", 1)], severity := "medium" } : Inconsistency) ∈
      detect_inconsistencies_from_samples []
        [("f", { original_keys := ["f"], type := "int", confidence := mkRat 1 2
                 type_distribution := [("int", 1), ("string", 1)], presence := 1 })] ∧
    (({ kind := "mixed_types", field := some "f", fields := none
        details := some [("int", 1), ("string", 1)], severity := "medium" } : Inconsistency).kind
        = "mixed_types" ∨
     ({ kind := "mixed_types", field := some "f", fields := none
        details := some [("int", 1), ("string", 1)], severity := "medium" } : Inconsistency).kind
        = "potential_synonyms") :=
  ⟨by decide,
   C7_no_missing_field_entries []
     [("f", { original_keys := ["f"], type := "int", confidence := mkRat 1 2
              type_distribution := [("int", 1), ("string", 1)], presence := 1 })]
     _ (by decide)⟩

/-- C7 counterexample: in c7data the field bbb is present in 2 of 3
records (presence 2/3, at least 50% and below 100%), yet the analysis
returns an empty inconsistencies list: no missing_field entry is emitted
for any record index. -/
theorem C7_counterexample :
    ((analyze_array c7data).schema.find? (fun e => e.1 = "bbb")).map (fun e => e.2.presence) =
      some (mkRat 2 3) ∧
    (analyze_array c7data).inconsistencies = [] := by
  refine ⟨by decide, by decide⟩

/-- C9 counterexample: with the file id already present in the category
index but its metadata record missing from the store, add_file_to_group
reports failure (False), not success, although it is still a no-op on
the index. -/
theorem C9_counterexample :
    add_file_to_group (fun _ => none) "t1" "f1" "cat" (some c9index) =
      (false, some c9index) := by decide

/-- C9 (amended): provided the file's metadata exists, adding a file id
that is already in the category index is an idempotent no-op that
reports success, and a second add (at any later time) returns True and
leaves the index exactly as after the first add. -/
theorem C9_idempotent_add (get_metadata : String → Option FileMeta) (md : FileMeta)
    (now now2 : String) (file_id category : String) (index0 : Option GroupIndex)
    (hmd : get_metadata file_id = some md) :
    (∀ idx, index0 = some idx → file_id ∈ idx.files.map (·.file_id) →
      add_file_to_group get_metadata now file_id category index0 = (true, index0)) ∧
    add_file_to_group get_metadata now2 file_id category
        (add_file_to_group get_metadata now file_id category index0).2 =
      (true, (add_file_to_group get_metadata now file_id category index0).2) := by
  constructor
  · intro idx h0 hmem
    subst h0
    simp only [add_file_to_group, hmd, Option.getD_some]
    simp [hmem]
  · rcases index0 with - | idx
    · simp only [add_file_to_group, hmd, Option.getD_none, Option.getD_some]
      simp
    · simp only [add_file_to_group, hmd, Option.getD_some]
      by_cases hmem : file_id ∈ idx.files.map (·.file_id)
      · simp [hmem]
      · simp only [hmem, if_neg, if_pos]
        simp [List.mem_map]

/-- Witness for C9: a concrete store where the metadata for f1 exists;
the first add appends f1, the second is a no-op reporting success. -/
theorem C9_idempotent_add_witness :
    (∀ idx, (some c9index : Option GroupIndex) = some idx →
        "f1" ∈ idx.files.map (·.file_id) →
      add_file_to_group (fun _ => some { filename := "a.txt", file_type := "text" })
          "t1" "f1" "cat" (some c9index) = (true, some c9index)) ∧
    add_file_to_group (fun _ => some { filename := "a.txt", file_type := "text" })
        "t2" "f1" "cat"
        (add_file_to_group (fun _ => some { filename := "a.txt", file_type := "text" })
            "t1" "f1" "cat" (some c9index)).2 =
      (true,
        (add_file_to_group (fun _ => some { filename := "a.txt", file_type := "text" })
            "t1" "f1" "cat" (some c9index)).2) :=
  C9_idempotent_add (fun _ => some { filename := "a.txt", file_type := "text" })
    { filename := "a.txt", file_type := "text" } "t1" "t2" "f1" "cat" (some c9index) rfl

/-- sampleBoundsFields distributes over append. -/
theorem sampleBoundsFields_append (d : Nat) (a b : List (String × JVal)) :
    sampleBoundsFields d (a ++ b) = (sampleBoundsFields d a && sampleBoundsFields d b) := by
  induction a with
  | nil => simp [sampleBoundsFields]
  | cons x rest ih =>
    obtain ⟨k, v⟩ := x
    simp [sampleBoundsFields, ih, Bool.and_assoc]

/-- The field loop keeps at most its fuel many fields. -/
theorem simplifyFields_length_le (m c : Nat) :
    ∀ (n : Nat) (l : List (String × JVal)), (simplifyFields m c n l).length ≤ n := by
  intro n
  induction n with
  | zero =>
    intro l
    cases l <;> simp [simplifyFields]
  | succ n ih =>
    intro l
    cases l with
    | nil => simp [simplifyFields]
    | cons x rest =>
      obtain ⟨k, v⟩ := x
      simpa [simplifyFields] using ih rest

mutual
/-- Every simplified dict satisfies the sample bounds at its depth. -/
theorem sampleBounds_simplify : ∀ (d : Nat) (fields : List (String × JVal)),
    sampleBounds d (simplify_record 2 d (.jobj fields)) = true
  | d, fields => by
    by_cases h2 : 2 ≤ d
    · rw [simplify_record]
      simp only [h2, if_pos]
      simp [sampleBounds, sampleBoundsFields, h2]
      decide
    · rw [simplify_record]
      simp only [h2, if_neg, if_false]
      have hlen : (simplifyFields 2 d 20 fields).length ≤ 20 :=
        simplifyFields_length_le 2 d 20 fields
      have hA := sampleBounds_simplifyFields d 20 (by omega) fields
      by_cases hbig : 20 < fields.length
      · simp only [hbig, if_pos]
        simp [sampleBounds, sampleBoundsFields_append, hA, h2, sampleBoundsFields,
          sampleBounds]
        omega
      · simp only [hbig, if_neg, if_false]
        simp [sampleBounds, sampleBoundsFields_append, hA, h2, sampleBoundsFields]
        omega
  termination_by d fields => (sizeOf fields, 1)

/-- Every value produced by the field loop satisfies the sample bounds
one level deeper. -/
theorem sampleBounds_simplifyFields : ∀ (d n : Nat), d < 2 →
    ∀ (fields : List (String × JVal)),
    sampleBoundsFields (d + 1) (simplifyFields 2 d n fields) = true
  | d, 0, hd, [] => by simp [simplifyFields, sampleBoundsFields]
  | d, 0, hd, (k, v) :: rest => by simp [simplifyFields, sampleBoundsFields]
  | d, n + 1, hd, [] => by simp [simplifyFields, sampleBoundsFields]
  | d, n + 1, hd, (k, v) :: rest => by
    have hrest := sampleBounds_simplifyFields d n hd rest
    cases v with
    | jobj g =>
      have hrec := sampleBounds_simplify (d + 1) g
      simp [simplifyFields, sampleBoundsFields, hrest, hrec]
    | jarr xs =>
      by_cases hx : 5 < xs.length
      · simp [simplifyFields, sampleBoundsFields, hrest, hx, sampleBounds,
          List.length_take]
      · simp [simplifyFields, sampleBoundsFields, hrest, hx, sampleBounds]
        omega
    | jstr s =>
      by_cases hs : 200 < s.length
      · simp [simplifyFields, sampleBoundsFields, hrest, hs, sampleBounds,
          String.length_append, String.length_mk, List.length_take]
        have h3 : "...".length = 3 := rfl
        omega
      · simp [simplifyFields, sampleBoundsFields, hrest, hs, sampleBounds]
        omega
    | jnull => simp [simplifyFields, sampleBoundsFields, hrest, sampleBounds]
    | jbool b => simp [simplifyFields, sampleBoundsFields, hrest, sampleBounds]
    | jint m => simp [simplifyFields, sampleBoundsFields, hrest, sampleBounds]
    | jfloat q => simp [simplifyFields, sampleBoundsFields, hrest, sampleBounds]
  termination_by d n hd fields => (sizeOf fields, 0)
end

/-- Simplifying any dict value yields a record within the sample bounds. -/
theorem sampleBounds_simplify_isObj (v : JVal) (h : v.isObj = true) :
    sampleBounds 0 (simplify_record 2 0 v) = true := by
  cases v with
  | jobj fields => exact sampleBounds_simplify 0 fields
  | jnull => simp [JVal.isObj] at h
  | jbool b => simp [JVal.isObj] at h
  | jint n => simp [JVal.isObj] at h
  | jfloat q => simp [JVal.isObj] at h
  | jstr s => simp [JVal.isObj] at h
  | jarr xs => simp [JVal.isObj] at h

/-- Every record the stride loop accumulates is a simplified dict within
the sample bounds. -/
theorem strideCollect_bounds (data : List JVal) (cap : Nat) :
    ∀ (idxs : List Nat) (acc : List JVal),
    (∀ a ∈ acc, sampleBounds 0 a = true) →
    ∀ s ∈ strideCollect data cap idxs acc, sampleBounds 0 s = true := by
  intro idxs
  induction idxs with
  | nil => intro acc hacc s hs; exact hacc s hs
  | cons i rest ih =>
    intro acc hacc s hs
    rw [strideCollect] at hs
    split at hs
    · exact hacc s hs
    · split at hs
      · split at hs
        · refine ih _ ?_ s hs
          intro a ha
          rcases List.mem_append.mp ha with h1 | h1
          · exact hacc a h1
          · rw [List.mem_singleton.mp h1]
            exact sampleBounds_simplify_isObj _ (by assumption)
        · exact ih acc hacc s hs
      · exact ih acc hacc s hs

/-- C3 (amended): for every input array the sample list holds at most 50
entries, and every sample satisfies the bounds the code actually
enforces: at most 21 fields per object (20 kept plus the
truncated-fields marker), objects nested at depth 2 reduced to the
truncation marker, array values of at most 6 entries (5 kept plus the
marker string, with entries inside arrays passed through unmodified),
and directly-held string values of at most 203 characters (200 plus the
ellipsis). -/
theorem C3_sample_caps (data : List JVal) :
    (extract_samples data 50).length ≤ 50 ∧
    ∀ s ∈ extract_samples data 50, sampleBounds 0 s = true := by
  unfold extract_samples
  by_cases hlen : data.length ≤ 50
  · rw [if_pos hlen]
    constructor
    · calc ((data.filter JVal.isObj).map (simplify_record 2 0)).length
          = (data.filter JVal.isObj).length := List.length_map _ _
        _ ≤ data.length := List.length_filter_le _ _
        _ ≤ 50 := hlen
    · intro s hs
      rcases List.mem_map.mp hs with ⟨v, hv, rfl⟩
      exact sampleBounds_simplify_isObj v (List.of_mem_filter hv)
  · rw [if_neg hlen]
    constructor
    · exact List.length_take_le _ _
    · intro s hs
      have hs2 := List.mem_of_mem_take hs
      exact strideCollect_bounds data 50 _ [] (by intro a ha; cases ha) s hs2

/-- Witness for C3: the caps theorem applied to a one-record array. -/
theorem C3_sample_caps_witness :
    (extract_samples [.jobj [("a", .jint 1)]] 50).length ≤ 50 ∧
    ∀ s ∈ extract_samples [.jobj [("a", .jint 1)]] 50, sampleBounds 0 s = true :=
  C3_sample_caps [.jobj [("a", .jint 1)]]

set_option maxRecDepth 20000 in
/-- C3 counterexample: a record holding an array of 6 entries is
simplified to an array of 6 entries (5 kept plus the marker string), so
the claimed cap of 5 entries per array value is exceeded; the same
record fed through _extract_samples returns that 6-entry array, and a
201-character string value is truncated to 203 characters, over the
claimed 200. -/
theorem C3_counterexample :
    simplify_record 2 0
        (.jobj [("a", .jarr [.jint 1, .jint 2, .jint 3, .jint 4, .jint 5, .jint 6])]) =
      .jobj [("a", .jarr [.jint 1, .jint 2, .jint 3, .jint 4, .jint 5,
                          .jstr "... 1 more items"])] ∧
    extract_samples [.jobj [("a", .jarr [.jint 1, .jint 2, .jint 3, .jint 4, .jint 5, .jint 6])]] 50 =
      [.jobj [("a", .jarr [.jint 1, .jint 2, .jint 3, .jint 4, .jint 5,
                           .jstr "... 1 more items"])]] ∧
    (match simplify_record 2 0 (.jobj [("s", .jstr (String.mk (List.replicate 201 'x')))]) with
      | .jobj [(_, .jstr t)] => t.length
      | _ => 0) = 203 := by
  refine ⟨by decide, by decide, by decide⟩


/-- Unfolding of membership in the phash inner-loop filter. -/
theorem mem_phashMembers {p1 : String} {rest : List (Nat × RuleItem)} {proc : List Nat}
    {x : Nat × RuleItem} (hx : x ∈ phashMembers p1 rest proc) :
    x ∈ rest ∧ x.1 ∉ proc ∧
    ∃ p2, x.2.phash = some p2 ∧ p2.isEmpty = false ∧
      mkRat 9 10 < phash_similarity p1 p2 := by
  rw [phashMembers, List.mem_filter] at hx
  obtain ⟨h1, h2⟩ := hx
  rw [Bool.and_eq_true] at h2
  obtain ⟨h2a, h2b⟩ := h2
  refine ⟨h1, by simpa using h2a, ?_⟩
  cases hp2 : x.2.phash with
  | none => rw [hp2] at h2b; cases h2b
  | some p2 =>
    rw [hp2] at h2b
    simp only [Bool.and_eq_true, Bool.not_eq_true', decide_eq_true_eq] at h2b
    exact ⟨p2, rfl, h2b.1, h2b.2⟩

/-- Unfolding of membership in the content inner-loop filter. -/
theorem mem_contentMembers {f : RuleItem} {rest : List (Nat × RuleItem)} {proc : List Nat}
    {x : Nat × RuleItem} (hx : x ∈ contentMembers f rest proc) :
    x ∈ rest ∧ x.1 ∉ proc ∧ mkRat 7 10 < text_similarity f x.2 := by
  rw [contentMembers, List.mem_filter] at hx
  obtain ⟨h1, h2⟩ := hx
  rw [Bool.and_eq_true] at h2
  obtain ⟨h2a, h2b⟩ := h2
  exact ⟨h1, by simpa using h2a, by simpa using h2b⟩

/-- Structure of every group emitted by the phash outer loop: more than
one member, no member index already processed, and the group is a seed
carrying a truthy hash followed by its filtered members. -/
theorem phashOuter_mem : ∀ (l : List (Nat × RuleItem)) (processed : List Nat)
    (g : List (Nat × RuleItem)), g ∈ phashOuter l processed →
    1 < g.length ∧ (∀ x ∈ g, x.1 ∉ processed) ∧
    ∃ i f p1 rest proc2, g = (i, f) :: phashMembers p1 rest proc2 ∧
      f.phash = some p1 ∧ p1.isEmpty = false := by
  intro l
  induction l with
  | nil => intro processed g hg; cases hg
  | cons hd rest ih =>
    obtain ⟨i, f⟩ := hd
    intro processed g hg
    rw [phashOuter] at hg
    by_cases hi : i ∈ processed
    · rw [if_pos hi] at hg
      exact ih processed g hg
    · rw [if_neg hi] at hg
      cases hp : f.phash with
      | none =>
        rw [hp] at hg
        exact ih processed g hg
      | some p1 =>
        rw [hp] at hg
        dsimp only at hg
        by_cases he : p1.isEmpty
        · rw [if_pos he] at hg
          exact ih processed g hg
        · rw [if_neg he] at hg
          by_cases hlen : 1 < ((i, f) :: phashMembers p1 rest processed).length
          · rw [if_pos hlen] at hg
            rcases List.mem_cons.mp hg with rfl | hg2
            · refine ⟨hlen, ?_, i, f, p1, rest, processed, rfl, hp,
                Bool.not_eq_true _ ▸ he⟩
              intro x hx
              rcases List.mem_cons.mp hx with rfl | hx2
              · exact hi
              · exact (mem_phashMembers hx2).2.1
            · have h3 := ih _ g hg2
              refine ⟨h3.1, ?_, h3.2.2⟩
              intro x hx hxp
              exact h3.2.1 x hx (by simp [hxp])
          · rw [if_neg hlen] at hg
            have h3 := ih _ g hg
            refine ⟨h3.1, ?_, h3.2.2⟩
            intro x hx hxp
            exact h3.2.1 x hx (by simp [hxp])

/-- Groups emitted by the phash outer loop are pairwise index-disjoint:
each group's indices go into the processed set before the recursive call,
and later groups avoid the processed set. -/
theorem phashOuter_pairwise : ∀ (l : List (Nat × RuleItem)) (processed : List Nat),
    (phashOuter l processed).Pairwise (fun g1 g2 => ∀ x ∈ g1, ∀ y ∈ g2, x.1 ≠ y.1) := by
  intro l
  induction l with
  | nil => intro processed; simp [phashOuter]
  | cons hd rest ih =>
    obtain ⟨i, f⟩ := hd
    intro processed
    rw [phashOuter]
    by_cases hi : i ∈ processed
    · rw [if_pos hi]; exact ih processed
    · rw [if_neg hi]
      cases hp : f.phash with
      | none => exact ih processed
      | some p1 =>
        dsimp only
        by_cases he : p1.isEmpty
        · rw [if_pos he]; exact ih processed
        · rw [if_neg he]
          by_cases hlen : 1 < ((i, f) :: phashMembers p1 rest processed).length
          · rw [if_pos hlen]
            refine List.Pairwise.cons ?_ (ih _)
            intro g2 hg2 x hx y hy
            have h3 := (phashOuter_mem _ _ g2 hg2).2.1 y hy
            intro hxy
            apply h3
            rw [← hxy]
            rcases List.mem_cons.mp hx with rfl | hx2
            · simp
            · have : x.1 ∈ (phashMembers p1 rest processed).map (fun e => e.1) :=
                List.mem_map_of_mem _ hx2
              simp only [List.mem_append]
              right
              exact this
          · rw [if_neg hlen]; exact ih _

/-- Structure of every group emitted by the content outer loop. -/
theorem contentOuter_mem : ∀ (l : List (Nat × RuleItem)) (processed : List Nat)
    (g : List (Nat × RuleItem)), g ∈ contentOuter l processed →
    1 < g.length ∧ (∀ x ∈ g, x.1 ∉ processed) := by
  intro l
  induction l with
  | nil => intro processed g hg; cases hg
  | cons hd rest ih =>
    obtain ⟨i, f⟩ := hd
    intro processed g hg
    rw [contentOuter] at hg
    by_cases hi : i ∈ processed
    · rw [if_pos hi] at hg
      exact ih processed g hg
    · rw [if_neg hi] at hg
      dsimp only at hg
      by_cases hlen : 1 < ((i, f) :: contentMembers f rest processed).length
      · rw [if_pos hlen] at hg
        rcases List.mem_cons.mp hg with rfl | hg2
        · refine ⟨hlen, ?_⟩
          intro x hx
          rcases List.mem_cons.mp hx with rfl | hx2
          · exact hi
          · exact (mem_contentMembers hx2).2.1
        · have h3 := ih _ g hg2
          refine ⟨h3.1, ?_⟩
          intro x hx hxp
          exact h3.2 x hx (by simp [hxp])
      · rw [if_neg hlen] at hg
        have h3 := ih _ g hg
        refine ⟨h3.1, ?_⟩
        intro x hx hxp
        exact h3.2 x hx (by simp [hxp])

/-- Groups emitted by the content outer loop are pairwise
index-disjoint. -/
theorem contentOuter_pairwise : ∀ (l : List (Nat × RuleItem)) (processed : List Nat),
    (contentOuter l processed).Pairwise (fun g1 g2 => ∀ x ∈ g1, ∀ y ∈ g2, x.1 ≠ y.1) := by
  intro l
  induction l with
  | nil => intro processed; simp [contentOuter]
  | cons hd rest ih =>
    obtain ⟨i, f⟩ := hd
    intro processed
    rw [contentOuter]
    by_cases hi : i ∈ processed
    · rw [if_pos hi]; exact ih processed
    · rw [if_neg hi]
      dsimp only
      by_cases hlen : 1 < ((i, f) :: contentMembers f rest processed).length
      · rw [if_pos hlen]
        refine List.Pairwise.cons ?_ (ih _)
        intro g2 hg2 x hx y hy
        have h3 := (contentOuter_mem _ _ g2 hg2).2 y hy
        intro hxy
        apply h3
        rw [← hxy]
        rcases List.mem_cons.mp hx with rfl | hx2
        · simp
        · have : x.1 ∈ (contentMembers f rest processed).map (fun e => e.1) :=
            List.mem_map_of_mem _ hx2
          simp only [List.mem_append]
          right
          exact this
      · rw [if_neg hlen]; exact ih _

/-- C8: for every input list of classified items, every similarity
cluster returned by the perceptual-hash grouping and by the lexical
grouping has at least two members, and within one grouping run the
clusters are pairwise disjoint (no enumerate index appears in two
clusters). -/
theorem C8_clusters_size_disjoint (image_files text_files : List RuleItem) :
    (∀ g ∈ group_by_phash image_files, 2 ≤ g.length) ∧
    (group_by_phash image_files).Pairwise
      (fun g1 g2 => ∀ x ∈ g1, ∀ y ∈ g2, x.1 ≠ y.1) ∧
    (∀ g ∈ group_by_content text_files, 2 ≤ g.length) ∧
    (group_by_content text_files).Pairwise
      (fun g1 g2 => ∀ x ∈ g1, ∀ y ∈ g2, x.1 ≠ y.1) := by
  refine ⟨?_, phashOuter_pairwise _ _, ?_, contentOuter_pairwise _ _⟩
  · intro g hg
    exact (phashOuter_mem _ _ g hg).1
  · intro g hg
    exact (contentOuter_mem _ _ g hg).1

/-- Witness for C8: two images with identical hashes form one cluster of
size 2. -/
theorem C8_clusters_size_disjoint_witness :
    [((0 : Nat), ({ id := some 1, phash := some "abcd", tfidf := none } : RuleItem)),
     (1, { id := some 2, phash := some "abcd", tfidf := none })] ∈
      group_by_phash
        [{ id := some 1, phash := some "abcd", tfidf := none },
         { id := some 2, phash := some "abcd", tfidf := none }] ∧
    2 ≤ ([((0 : Nat), ({ id := some 1, phash := some "abcd", tfidf := none } : RuleItem)),
          (1, { id := some 2, phash := some "abcd", tfidf := none })]).length :=
  ⟨by with_unfolding_all decide,
   (C8_clusters_size_disjoint
      [{ id := some 1, phash := some "abcd", tfidf := none },
       { id := some 2, phash := some "abcd", tfidf := none }] []).1 _
     (by with_unfolding_all decide)⟩

/-- C10: perceptual hashes of unequal length have similarity exactly 0,
and consequently every member of an emitted phash cluster carries a
truthy hash of the same length as the cluster seed's hash (an item with
a missing, empty, or different-length hash is never absorbed). -/
theorem C10_unequal_hash_length (p1 p2 : String) (hne : p1.length ≠ p2.length) :
    phash_similarity p1 p2 = 0 ∧
    ∀ (image_files : List RuleItem) (g : List (Nat × RuleItem)),
      g ∈ group_by_phash image_files →
      ∃ i f q1, g.head? = some (i, f) ∧ f.phash = some q1 ∧ q1.isEmpty = false ∧
        ∀ m ∈ g.tail, ∃ q2, m.2.phash = some q2 ∧ q2.isEmpty = false ∧
          q2.length = q1.length := by
  constructor
  · rw [phash_similarity, if_pos hne]
  · intro image_files g hg
    obtain ⟨-, -, i, f, q1, rest, proc2, rfl, hp, hemp⟩ :=
      phashOuter_mem _ _ g hg
    refine ⟨i, f, q1, rfl, hp, hemp, ?_⟩
    intro m hm
    rw [List.tail_cons] at hm
    have hm2 := mem_phashMembers hm
    obtain ⟨-, -, q2, hq2, hq2e, hsim⟩ := hm2
    refine ⟨q2, hq2, hq2e, ?_⟩
    by_contra hql
    rw [phash_similarity, if_pos (fun h => hql h.symm)] at hsim
    exact absurd hsim (by decide)

/-- Witness for C10: hashes of length 3 and 4 have similarity 0, and the
cluster-shape conclusion holds for the two-image grouping run. -/
theorem C10_unequal_hash_length_witness :
    phash_similarity "abc" "abcd" = 0 ∧
    (∃ i f q1,
      ([((0 : Nat), ({ id := some 1, phash := some "abcd", tfidf := none } : RuleItem)),
        (1, { id := some 2, phash := some "abcd", tfidf := none })].head? = some (i, f) ∧
        f.phash = some q1 ∧ q1.isEmpty = false ∧
        ∀ m ∈ ([((0 : Nat), ({ id := some 1, phash := some "abcd", tfidf := none } : RuleItem)),
                (1, { id := some 2, phash := some "abcd", tfidf := none })]).tail,
          ∃ q2, m.2.phash = some q2 ∧ q2.isEmpty = false ∧ q2.length = q1.length)) :=
  ⟨(C10_unequal_hash_length "abc" "abcd" (by decide)).1,
   (C10_unequal_hash_length "abc" "abcd" (by decide)).2
     [{ id := some 1, phash := some "abcd", tfidf := none },
      { id := some 2, phash := some "abcd", tfidf := none }] _
     (by with_unfolding_all decide)⟩

/-- mkRat of a fraction with numerator at most the positive denominator
is at most 1. -/
theorem mkRat_nat_le_one (a b : Nat) (h : 0 < b) (hab : a ≤ b) : mkRat a b ≤ 1 := by
  rw [Rat.mkRat_eq_div]
  push_cast
  rw [div_le_one (by exact_mod_cast h)]
  exact_mod_cast hab

/-- mkRat of two naturals is nonnegative. -/
theorem mkRat_nat_nonneg (a b : Nat) : 0 ≤ mkRat (a : Int) b := by
  rw [Rat.mkRat_eq_div]
  positivity

/-- mkRat of a positive natural over itself is 1. -/
theorem mkRat_nat_self (a : Nat) (h : 0 < a) : mkRat (a : Int) a = 1 := by
  rw [Rat.mkRat_eq_div]
  push_cast
  rw [div_self (by exact_mod_cast h.ne')]

/-- Incrementing a counter adds exactly one observation to its total. -/
theorem counterTotal_counterAdd : ∀ (c : Counter) (t : String),
    counterTotal (counterAdd c t) = counterTotal c + 1 := by
  intro c t
  induction c with
  | nil => simp [counterAdd, counterTotal]
  | cons e rest ih =>
    obtain ⟨k, n⟩ := e
    by_cases hk : k = t
    · simp [counterAdd, hk, counterTotal]
      omega
    · simp only [counterAdd, hk, if_neg, if_false]
      simp only [counterTotal, List.map_cons, List.sum_cons] at ih ⊢
      omega

/-- ftGet on a cons with a matching head key. -/
theorem ftGet_cons_self (k : String) (c : Counter) (l : FieldTypes) :
    ftGet ((k, c) :: l) k = c := by
  simp [ftGet]

/-- ftGet on a cons with a non-matching head key. -/
theorem ftGet_cons_ne (k : String) (c : Counter) (l : FieldTypes) (nk : String)
    (h : ¬k = nk) : ftGet ((k, c) :: l) nk = ftGet l nk := by
  simp [ftGet, h]

/-- Looking up the bumped key after ftAdd gives the incremented counter. -/
theorem ftGet_ftAdd_self : ∀ (ft : FieldTypes) (key t : String),
    ftGet (ftAdd ft key t) key = counterAdd (ftGet ft key) t := by
  intro ft key t
  induction ft with
  | nil => simp [ftAdd, ftGet]
  | cons e rest ih =>
    obtain ⟨k, c⟩ := e
    by_cases hk : k = key
    · subst hk
      rw [show ftAdd ((k, c) :: rest) k t = (k, counterAdd c t) :: rest from by
        simp [ftAdd]]
      rw [ftGet_cons_self, ftGet_cons_self]
    · simp only [ftAdd, if_neg hk]
      rw [ftGet_cons_ne _ _ _ _ hk, ftGet_cons_ne _ _ _ _ hk, ih]

/-- Looking up another key after ftAdd is unchanged. -/
theorem ftGet_ftAdd_ne : ∀ (ft : FieldTypes) (key t nk : String), key ≠ nk →
    ftGet (ftAdd ft key t) nk = ftGet ft nk := by
  intro ft key t nk hne
  induction ft with
  | nil => simp [ftAdd, ftGet, hne]
  | cons e rest ih =>
    obtain ⟨k, c⟩ := e
    by_cases hk : k = key
    · subst hk
      rw [show ftAdd ((k, c) :: rest) k t = (k, counterAdd c t) :: rest from by
        simp [ftAdd]]
      rw [ftGet_cons_ne _ _ _ _ hne, ftGet_cons_ne _ _ _ _ hne]
    · by_cases hk2 : k = nk
      · subst hk2
        simp only [ftAdd, if_neg hk]
        rw [ftGet_cons_self, ftGet_cons_self]
      · simp only [ftAdd, if_neg hk]
        rw [ftGet_cons_ne _ _ _ _ hk2, ftGet_cons_ne _ _ _ _ hk2, ih]

/-- The per-record field loop adds one observation to the counter total
of a field for each key of the record normalizing to it. -/
theorem counterTotal_analyzeFields : ∀ (fields : List (String × JVal))
    (st : KeySet × FieldTypes) (nk : String),
    counterTotal (ftGet (analyzeFields st fields).2 nk) =
    counterTotal (ftGet st.2 nk) +
      (fields.filter (fun kv => normalize_key kv.1 = nk)).length := by
  intro fields
  induction fields with
  | nil => intro st nk; simp [analyzeFields]
  | cons kv rest ih =>
    intro st nk
    have hstep : analyzeFields st (kv :: rest) =
        analyzeFields (ksAdd st.1 (normalize_key kv.1, kv.1),
                       ftAdd st.2 (normalize_key kv.1) (infer_type kv.2)) rest := rfl
    rw [hstep, ih]
    by_cases hk : normalize_key kv.1 = nk
    · rw [hk, ftGet_ftAdd_self, counterTotal_counterAdd]
      simp [hk]
      omega
    · rw [ftGet_ftAdd_ne _ _ _ _ hk]
      simp [hk]

/-- Folding the analyzer over records adds the total observations of a
field to its counter total. -/
theorem counterTotal_foldRecords : ∀ (data : List JVal) (st : KeySet × FieldTypes)
    (nk : String),
    counterTotal (ftGet (data.foldl analyzeRecord st).2 nk) =
    counterTotal (ftGet st.2 nk) + totalObservations data nk := by
  intro data
  induction data with
  | nil => intro st nk; simp [totalObservations]
  | cons r rest ih =>
    intro st nk
    rw [List.foldl_cons, ih]
    have hone : counterTotal (ftGet (analyzeRecord st r).2 nk) =
        counterTotal (ftGet st.2 nk) + recordKeyCount nk r := by
      cases r with
      | jobj fields => exact counterTotal_analyzeFields fields st nk
      | jnull => simp [analyzeRecord, recordKeyCount]
      | jbool b => simp [analyzeRecord, recordKeyCount]
      | jint n => simp [analyzeRecord, recordKeyCount]
      | jfloat q => simp [analyzeRecord, recordKeyCount]
      | jstr s => simp [analyzeRecord, recordKeyCount]
      | jarr xs => simp [analyzeRecord, recordKeyCount]
    rw [hone]
    simp [totalObservations]
    omega

/-- The pick loop of most_common lands on the initial entry or a list
entry. -/
theorem foldl_pick_mem : ∀ (l : Counter) (init : String × Nat),
    l.foldl (fun best x => if best.2 < x.2 then x else best) init ∈ init :: l := by
  intro l
  induction l with
  | nil => intro init; simp
  | cons x xs ih =>
    intro init
    rw [List.foldl_cons]
    rcases List.mem_cons.mp (ih (if init.2 < x.2 then x else init)) with h | h
    · rw [h]
      by_cases hx : init.2 < x.2 <;> simp [hx]
    · simp [h]

/-- The pick loop of most_common dominates the initial entry and every
list entry. -/
theorem foldl_pick_ge : ∀ (l : Counter) (init : String × Nat),
    init.2 ≤ (l.foldl (fun best x => if best.2 < x.2 then x else best) init).2 ∧
    ∀ e ∈ l, e.2 ≤ (l.foldl (fun best x => if best.2 < x.2 then x else best) init).2 := by
  intro l
  induction l with
  | nil => intro init; simp
  | cons x xs ih =>
    intro init
    rw [List.foldl_cons]
    obtain ⟨h1, h2⟩ := ih (if init.2 < x.2 then x else init)
    constructor
    · refine le_trans ?_ h1
      by_cases hx : init.2 < x.2 <;> simp [hx]
      omega
    · intro e he
      rcases List.mem_cons.mp he with hex | he2
      · rw [hex]
        refine le_trans ?_ h1
        by_cases hx : init.2 < x.2
        · simp [hx]
        · simp [hx]
          omega
      · exact h2 e he2

/-- most_common returns an entry of the counter. -/
theorem mostCommon_mem : ∀ (c : Counter) (mc : String × Nat),
    mostCommon c = some mc → mc ∈ c := by
  intro c mc h
  cases c with
  | nil => cases h
  | cons e rest =>
    rw [mostCommon, Option.some_inj] at h
    rw [← h]
    exact foldl_pick_mem rest e

/-- most_common returns an entry with the maximal count. -/
theorem mostCommon_ge : ∀ (c : Counter) (mc : String × Nat),
    mostCommon c = some mc → ∀ e ∈ c, e.2 ≤ mc.2 := by
  intro c mc h e he
  cases c with
  | nil => cases h
  | cons x rest =>
    rw [mostCommon, Option.some_inj] at h
    rw [← h]
    rcases List.mem_cons.mp he with rfl | he2
    · exact (foldl_pick_ge rest e).1
    · exact (foldl_pick_ge rest x).2 e he2

/-- Every count in a counter is at most the counter total. -/
theorem mem_le_counterTotal : ∀ (c : Counter) (e : String × Nat), e ∈ c →
    e.2 ≤ counterTotal c := by
  intro c
  induction c with
  | nil => intro e he; cases he
  | cons x rest ih =>
    intro e he
    simp only [counterTotal, List.map_cons, List.sum_cons]
    rcases List.mem_cons.mp he with rfl | he2
    · omega
    · have := ih e he2
      simp only [counterTotal] at this
      omega

/-- Elements of an ordered-dict insert are the inserted pair or an
original element. -/
theorem mem_schemaInsert {s : List (String × FieldInfo)} {k : String} {v : FieldInfo}
    {x : String × FieldInfo} (hx : x ∈ schemaInsert s k v) : x = (k, v) ∨ x ∈ s := by
  rw [schemaInsert] at hx
  split at hx
  · rcases List.mem_map.mp hx with ⟨e, he, hfe⟩
    by_cases hek : e.1 = k
    · left
      rw [← hfe, if_pos hek]
    · right
      rw [← hfe, if_neg hek]
      exact he
  · rcases List.mem_append.mp hx with h | h
    · right; exact h
    · left; exact List.mem_singleton.mp h

/-- Every schema entry produced by the build fold comes from the
accumulator or from the entry function at one of the iterated keys. -/
theorem mem_build_schema_aux : ∀ (keys ak : KeySet) (ft : FieldTypes) (tr : Nat)
    (s0 : List (String × FieldInfo)) (x : String × FieldInfo),
    x ∈ keys.foldl
      (fun schema kv =>
        match build_schema_entry ak ft tr kv.1 with
        | none => schema
        | some info => schemaInsert schema kv.1 info) s0 →
    x ∈ s0 ∨ ∃ kv ∈ keys, build_schema_entry ak ft tr kv.1 = some x.2 ∧ x.1 = kv.1 := by
  intro keys
  induction keys with
  | nil => intro ak ft tr s0 x hx; exact Or.inl hx
  | cons kv rest ih =>
    intro ak ft tr s0 x hx
    rw [List.foldl_cons] at hx
    rcases ih ak ft tr _ x hx with h | ⟨kv2, hkv2, he⟩
    · cases hentry : build_schema_entry ak ft tr kv.1 with
      | none =>
        rw [hentry] at h
        exact Or.inl h
      | some info =>
        rw [hentry] at h
        rcases mem_schemaInsert h with rfl | h2
        · exact Or.inr ⟨kv, List.mem_cons_self _ _, by simpa using hentry, rfl⟩
        · exact Or.inl h2
    · exact Or.inr ⟨kv2, List.mem_cons_of_mem _ hkv2, he⟩

/-- Pointwise-bounded map sums are bounded by the length. -/
theorem sum_map_le_length (data : List JVal) (f : JVal → Nat)
    (h : ∀ r ∈ data, f r ≤ 1) : (data.map f).sum ≤ data.length := by
  induction data with
  | nil => simp
  | cons r rest ih =>
    simp only [List.map_cons, List.sum_cons, List.length_cons]
    have h1 := h r (List.mem_cons_self _ _)
    have h2 := ih (fun x hx => h x (List.mem_cons_of_mem _ hx))
    omega

/-- A map summing constant 1 equals the length. -/
theorem sum_map_eq_length (data : List JVal) (f : JVal → Nat)
    (h : ∀ r ∈ data, f r = 1) : (data.map f).sum = data.length := by
  induction data with
  | nil => simp
  | cons r rest ih =>
    simp only [List.map_cons, List.sum_cons, List.length_cons]
    rw [h r (List.mem_cons_self _ _), ih (fun x hx => h x (List.mem_cons_of_mem _ hx))]
    omega

/-- C4 counterexample: one record containing both keys a b and a_b,
which normalize to the same field a_b, gives that field two observations
against one record, so presence = 2, outside [0,1]. -/
theorem C4_counterexample :
    ((infer_schema [.jobj [("a b", .jint 1), ("a_b", .jint 2)]]).find?
        (fun e => e.1 = "a_b")).map (fun e => e.2.presence) = some (mkRat 2 1) ∧
    ¬ ((mkRat 2 1 : ℚ) ≤ 1) := by
  refine ⟨by decide, by decide⟩

/-- C4 (amended): for every schema produced by inference and every field
in it, the type distribution is the per-field type histogram whose total
is the field's observation count over the data; confidence is the
mode count over that total and lies in [0,1]; presence is the
observation count over the record total, is nonnegative, lies in [0,1]
whenever no single record contributes two keys normalizing to the same
field, and equals 1.0 for a field contributed exactly once by every
record of a nonempty input. -/
theorem C4_confidence_presence (data : List JVal) (nk : String) (info : FieldInfo)
    (h : (nk, info) ∈ infer_schema data) :
    0 ≤ info.confidence ∧ info.confidence ≤ 1 ∧
    (∃ mc ∈ info.type_distribution,
      (∀ e ∈ info.type_distribution, e.2 ≤ mc.2) ∧
      info.confidence =
        if 0 < counterTotal info.type_distribution then
          mkRat mc.2 (counterTotal info.type_distribution) else 0) ∧
    counterTotal info.type_distribution = totalObservations data nk ∧
    info.presence =
      (if 0 < data.length then mkRat (totalObservations data nk) data.length else 0) ∧
    0 ≤ info.presence ∧
    ((∀ r ∈ data, recordKeyCount nk r ≤ 1) → info.presence ≤ 1) ∧
    (data ≠ [] → (∀ r ∈ data, recordKeyCount nk r = 1) → info.presence = 1) := by
  have h2 : (nk, info) ∈ build_schema_from_types
      (data.foldl analyzeRecord ([], [])).1
      (data.foldl analyzeRecord ([], [])).2 data.length := h
  rw [build_schema_from_types] at h2
  rcases mem_build_schema_aux _ _ _ _ _ _ h2 with h3 | ⟨kv, -, hentry, hk1⟩
  · cases h3
  · simp only at hk1
    rw [← hk1] at hentry
    have htot : counterTotal (ftGet (data.foldl analyzeRecord ([], [])).2 nk) =
        totalObservations data nk := by
      have hfold := counterTotal_foldRecords data ([], []) nk
      simpa [ftGet, counterTotal] using hfold
    simp only [build_schema_entry] at hentry
    cases hmc : mostCommon (ftGet (data.foldl analyzeRecord ([], [])).2 nk) with
    | none => rw [hmc] at hentry; cases hentry
    | some mc =>
      rw [hmc] at hentry
      have hinfo := Option.some_inj.mp hentry
      rw [← hinfo]
      dsimp only
      have hmem := mostCommon_mem _ _ hmc
      have hge := mostCommon_ge _ _ hmc
      have hle := mem_le_counterTotal _ _ hmem
      rw [htot]
      refine ⟨?_, ?_, ⟨mc, hmem, hge, rfl⟩, rfl, rfl, ?_, ?_, ?_⟩
      · split
        · exact mkRat_nat_nonneg _ _
        · exact le_refl 0
      · split
        · refine mkRat_nat_le_one _ _ (by omega) ?_
          omega
        · exact zero_le_one
      · split
        · exact mkRat_nat_nonneg _ _
        · exact le_refl 0
      · intro hbound
        have hsum : totalObservations data nk ≤ data.length :=
          sum_map_le_length data _ hbound
        split
        · exact mkRat_nat_le_one _ _ (by omega) hsum
        · exact zero_le_one
      · intro hne hall
        have hsum : totalObservations data nk = data.length :=
          sum_map_eq_length data _ hall
        have hpos : 0 < data.length := List.length_pos.mpr hne
        rw [if_pos hpos, hsum]
        exact mkRat_nat_self _ hpos

/-- Witness for C4: the bounds theorem applied to the schema of a single
one-field record. -/
theorem C4_confidence_presence_witness :
    (0 : ℚ) ≤ ({ original_keys := ["a"], type := "int", confidence := mkRat 1 1
                 type_distribution := [("int", 1)], presence := mkRat 1 1 } :
                  FieldInfo).confidence ∧
    ({ original_keys := ["a"], type := "int", confidence := mkRat 1 1
       type_distribution := [("int", 1)], presence := mkRat 1 1 } :
        FieldInfo).confidence ≤ 1 :=
  ⟨(C4_confidence_presence [.jobj [("a", .jint 1)]] "a" _ (by decide)).1,
   (C4_confidence_presence [.jobj [("a", .jint 1)]] "a" _ (by decide)).2.1⟩

/-- While at most 1000 records are in reach, the streaming loop never
breaks: it counts every record, collects samples with the 50 cap, and
accumulates exactly the same key set and type counters as the eager
fold. -/
theorem streamLoop_noBreak : ∀ (items : List JVal) (st : StreamState),
    st.record_count + items.length ≤ 1000 →
    streamLoop items st =
      { record_count := st.record_count + items.length
        samples := items.foldl
          (fun s item =>
            if s.length < 50 && item.isObj then s ++ [simplify_record 2 0 item] else s)
          st.samples
        all_keys := (items.foldl analyzeRecord (st.all_keys, st.field_types)).1
        field_types := (items.foldl analyzeRecord (st.all_keys, st.field_types)).2 } := by
  intro items
  induction items with
  | nil =>
    intro st h
    simp [streamLoop]
  | cons item rest ih =>
    intro st h
    simp only [List.length_cons] at h
    rw [streamLoop]
    simp only [List.foldl_cons]
    cases hin : (decide (st.samples.length < 50) && item.isObj) with
    | true =>
      simp only [hin, if_true]
      by_cases hbr : (decide (1000 ≤ st.record_count + 1) &&
          decide (50 ≤ (st.samples ++ [simplify_record 2 0 item]).length)) = true
      · rw [if_pos hbr]
        rw [Bool.and_eq_true, decide_eq_true_eq, decide_eq_true_eq] at hbr
        have hrest : rest = [] := by
          rw [← List.length_eq_zero]
          omega
        subst hrest
        simp only [List.foldl_nil, List.length_nil, List.length_cons,
          StreamState.mk.injEq]
        repeat' apply And.intro
        all_goals first | rfl | omega | trivial
      · rw [if_neg hbr]
        rw [ih _ (by simp only [List.length_cons] at *; omega)]
        simp only [List.length_cons, StreamState.mk.injEq]
        repeat' apply And.intro
        all_goals first | rfl | omega | trivial
    | false =>
      rw [if_neg (by decide : ¬ (false = true))]
      by_cases hbr : (decide (1000 ≤ st.record_count + 1) &&
          decide (50 ≤ st.samples.length)) = true
      · rw [if_pos hbr]
        rw [Bool.and_eq_true, decide_eq_true_eq, decide_eq_true_eq] at hbr
        have hrest : rest = [] := by
          rw [← List.length_eq_zero]
          omega
        subst hrest
        simp only [List.foldl_nil, List.length_nil, List.length_cons,
          StreamState.mk.injEq]
        repeat' apply And.intro
        all_goals first | rfl | omega | trivial
      · rw [if_neg hbr]
        rw [ih _ (by simp only [List.length_cons] at *; omega)]
        simp only [List.length_cons, StreamState.mk.injEq]
        repeat' apply And.intro
        all_goals first | rfl | omega | trivial

/-- While the sample list stays under the 50 cap, streaming sample
collection equals mapping the simplifier over the dict records, which is
exactly the small-input branch of _extract_samples. -/
theorem sampleFold_eq : ∀ (items : List JVal) (acc : List JVal),
    acc.length + items.length ≤ 50 →
    items.foldl
      (fun s item =>
        if s.length < 50 && item.isObj then s ++ [simplify_record 2 0 item] else s)
      acc =
    acc ++ (items.filter JVal.isObj).map (simplify_record 2 0) := by
  intro items
  induction items with
  | nil => intro acc h; simp
  | cons item rest ih =>
    intro acc h
    simp only [List.length_cons] at h
    rw [List.foldl_cons]
    have hlt : acc.length < 50 := by omega
    cases ho : item.isObj with
    | true =>
      rw [if_pos (by simp [hlt, ho])]
      rw [ih _ (by simp; omega)]
      simp [List.filter_cons, ho]
    | false =>
      rw [if_neg (by simp [ho])]
      rw [ih _ (by omega)]
      simp [List.filter_cons, ho]

/-- C1 (amended): the two analysis modes agree exactly as far as the
streaming cutoffs allow.  For at most 1000 records the streaming loop
analyzes every record, so the schemas (and the schema-derived
inconsistency lists) of the two modes coincide; for at most 50 records
the sample lists also coincide, so record counts, sampled counts,
schemas, samples and inconsistencies all agree and the results differ
only in the is_large_file flag. -/
theorem C1_mode_agreement (data : List JVal) :
    (data.length ≤ 1000 →
      (stream_analyze_array data).schema = (analyze_array data).schema ∧
      (stream_analyze_array data).inconsistencies = (analyze_array data).inconsistencies) ∧
    (data.length ≤ 50 →
      (stream_analyze_array data).record_count = (analyze_array data).record_count ∧
      (stream_analyze_array data).sampled_count = (analyze_array data).sampled_count ∧
      (stream_analyze_array data).samples = (analyze_array data).samples) := by
  by_cases hemp : data.isEmpty = true
  · rw [List.isEmpty_iff.mp hemp]
    exact ⟨fun _ => ⟨by decide, by decide⟩, fun _ => ⟨by decide, by decide, by decide⟩⟩
  · have hne : data ≠ [] := fun hd => hemp (by rw [hd]; rfl)
    constructor
    · intro h1000
      have hst := streamLoop_noBreak data ⟨0, [], [], []⟩ (by simpa using h1000)
      simp only [zero_add] at hst
      have hschema : (stream_analyze_array data).schema = infer_schema data := by
        show (build_schema_from_types (streamLoop data ⟨0, [], [], []⟩).all_keys
          (streamLoop data ⟨0, [], [], []⟩).field_types
          (min (streamLoop data ⟨0, [], [], []⟩).record_count 1000)) = infer_schema data
        rw [hst]
        dsimp only
        rw [Nat.min_eq_left h1000]
        rfl
      have heag : (analyze_array data).schema = infer_schema data := by
        rw [analyze_array, if_neg hemp]
      refine ⟨by rw [hschema, heag], ?_⟩
      show detect_inconsistencies_from_samples
          (streamLoop data ⟨0, [], [], []⟩).samples (build_schema_from_types
          (streamLoop data ⟨0, [], [], []⟩).all_keys
          (streamLoop data ⟨0, [], [], []⟩).field_types
          (min (streamLoop data ⟨0, [], [], []⟩).record_count 1000)) =
        (analyze_array data).inconsistencies
      have : (analyze_array data).inconsistencies =
          detect_inconsistencies_from_samples (extract_samples data 50)
            (infer_schema data) := by
        rw [analyze_array, if_neg hemp]
      rw [this, hst]
      dsimp only
      rw [Nat.min_eq_left h1000]
      rfl
    · intro h50
      have hst := streamLoop_noBreak data ⟨0, [], [], []⟩ (by simp; omega)
      simp only [zero_add] at hst
      have hS := sampleFold_eq data [] (by simpa using h50)
      have hsam : (streamLoop data ⟨0, [], [], []⟩).samples =
          (data.filter JVal.isObj).map (simplify_record 2 0) := by
        rw [hst]
        simpa using hS
      have hslen : (streamLoop data ⟨0, [], [], []⟩).samples.length ≤ 50 := by
        rw [hsam]
        calc ((data.filter JVal.isObj).map (simplify_record 2 0)).length
            = (data.filter JVal.isObj).length := List.length_map _ _
          _ ≤ data.length := List.length_filter_le _ _
          _ ≤ 50 := h50
      have heag : extract_samples data 50 =
          (data.filter JVal.isObj).map (simplify_record 2 0) := by
        rw [extract_samples, if_pos h50]
      refine ⟨?_, ?_, ?_⟩
      · show (streamLoop data ⟨0, [], [], []⟩).record_count =
          (analyze_array data).record_count
        rw [hst, analyze_array, if_neg hemp]
      · show (streamLoop data ⟨0, [], [], []⟩).samples.length =
          (analyze_array data).sampled_count
        rw [analyze_array, if_neg hemp]
        dsimp only
        rw [hsam, heag]
      · show (streamLoop data ⟨0, [], [], []⟩).samples.take 50 =
          (analyze_array data).samples
        rw [List.take_of_length_le hslen, analyze_array, if_neg hemp]
        dsimp only
        rw [hsam, heag]

/-- Witness for C1: mode agreement evaluated on a one-record array. -/
theorem C1_mode_agreement_witness :
    ((stream_analyze_array [.jobj [("x", .jint 1)]]).schema =
      (analyze_array [.jobj [("x", .jint 1)]]).schema) ∧
    ((stream_analyze_array [.jobj [("x", .jint 1)]]).samples =
      (analyze_array [.jobj [("x", .jint 1)]]).samples) :=
  ⟨((C1_mode_agreement [.jobj [("x", .jint 1)]]).1 (by decide)).1,
   ((C1_mode_agreement [.jobj [("x", .jint 1)]]).2 (by decide)).2.2⟩

/-- One streaming step over a copy of c1rec before the cutoff moves the
characterized state forward by one record. -/
theorem c1step (k : Nat) (rest : List JVal) (h : k + 1 < 1000) :
    streamLoop (c1rec :: rest) (c1st k) = streamLoop rest (c1st (k + 1)) := by
  have hobj : c1rec.isObj = true := rfl
  have hsimp : simplify_record 2 0 c1rec = c1rec := by decide
  have hsample : (if (c1st k).samples.length < 50 && c1rec.isObj then
      (c1st k).samples ++ [simplify_record 2 0 c1rec] else (c1st k).samples) =
      List.replicate (min (k + 1) 50) c1rec := by
    simp only [c1st, hobj, hsimp, List.length_replicate, Bool.and_true]
    by_cases hk : k < 50
    · rw [if_pos (by simpa using by omega : (decide (min k 50 < 50)) = true)]
      rw [Nat.min_eq_left (by omega), Nat.min_eq_left (by omega), ← List.replicate_succ']
    · rw [if_neg (by simpa using by omega : ¬(decide (min k 50 < 50)) = true)]
      rw [Nat.min_eq_right (by omega), Nat.min_eq_right (by omega)]
  have hanalyze : analyzeRecord ((c1st k).all_keys, (c1st k).field_types) c1rec =
      ((c1st (k + 1)).all_keys, (c1st (k + 1)).field_types) := by
    simp only [c1st]
    by_cases hk : k = 0
    · subst hk
      decide
    · rw [if_neg hk, if_neg hk, if_neg (by omega : ¬(k + 1 = 0)),
        if_neg (by omega : ¬(k + 1 = 0))]
      have hnk : normalize_key "a" = "a" := by decide
      simp [analyzeRecord, analyzeFields, c1rec, hnk, ksAdd, ftAdd, counterAdd]
      rfl
  rw [streamLoop]
  rw [hsample, hanalyze]
  rw [if_neg ?hcond]
  case hcond =>
    simp only [Bool.and_eq_true, decide_eq_true_eq]
    rintro ⟨h1, -⟩
    simp only [c1st] at h1
    omega
  have hrc : (c1st k).record_count + 1 = k + 1 := rfl
  rw [hrc]
  rfl

/-- Running the streaming loop over n copies of c1rec (staying below the
cutoff) advances the characterized state by n. -/
theorem c1run : ∀ (n k : Nat), k + n ≤ 999 → ∀ (tail : List JVal),
    streamLoop (List.replicate n c1rec ++ tail) (c1st k) =
      streamLoop tail (c1st (k + n)) := by
  intro n
  induction n with
  | zero => intro k h tail; simp
  | succ n ih =>
    intro k h tail
    rw [List.replicate_succ, List.cons_append, c1step k _ (by omega),
      ih (k + 1) (by omega) tail]
    have harith : k + 1 + n = k + (n + 1) := by omega
    rw [harith]

/-- The 1000th record fills the cutoff: the loop analyzes it, then only
counts the remaining records and stops. -/
theorem c1break :
    streamLoop (c1rec :: [c1last]) (c1st 999) =
      { record_count := 1001, samples := List.replicate 50 c1rec
        all_keys := [("a", "a")], field_types := [("a", [("int", 1000)])] } := by
  have hsample : (if (c1st 999).samples.length < 50 && c1rec.isObj then
      (c1st 999).samples ++ [simplify_record 2 0 c1rec] else (c1st 999).samples) =
      List.replicate 50 c1rec := by
    rw [if_neg]
    · rfl
    · simp [c1st]
  have hanalyze : analyzeRecord ((c1st 999).all_keys, (c1st 999).field_types) c1rec =
      ([("a", "a")], [("a", [("int", 1000)])]) := by
    have hnk : normalize_key "a" = "a" := by decide
    simp only [c1st, if_neg (by omega : ¬(999 = 0))]
    simp [analyzeRecord, analyzeFields, c1rec, hnk, ksAdd, ftAdd, counterAdd]
    rfl
  rw [streamLoop, hsample, hanalyze]
  rw [if_pos (by simp [c1st])]
  rfl

/-- One eager analyzer step over c1rec bumps the int counter of field a. -/
theorem c1anK (k : Nat) :
    analyzeRecord ([("a", "a")], [("a", [("int", k)])]) c1rec =
      ([("a", "a")], [("a", [("int", k + 1)])]) := by
  have hnk : normalize_key "a" = "a" := by decide
  simp [analyzeRecord, analyzeFields, c1rec, hnk, ksAdd, ftAdd, counterAdd]
  rfl

/-- The eager fold over n copies of c1rec adds n to the int counter. -/
theorem c1eagerfold : ∀ (n k : Nat),
    List.foldl analyzeRecord ([("a", "a")], [("a", [("int", k)])])
      (List.replicate n c1rec) =
      ([("a", "a")], [("a", [("int", k + n)])]) := by
  intro n
  induction n with
  | zero => intro k; simp
  | succ n ih =>
    intro k
    rw [List.replicate_succ, List.foldl_cons, c1anK k, ih (k + 1)]
    have harith : k + 1 + n = k + (n + 1) := by omega
    rw [harith]

set_option maxRecDepth 10000 in
/-- The eager accumulators over all 1001 records of c1data. -/
theorem c1eager_acc :
    List.foldl analyzeRecord ([], []) c1data =
      ([("a", "a"), ("b", "b")], [("a", [("int", 1001)]), ("b", [("int", 1)])]) := by
  have hsplit : c1data = c1rec :: (List.replicate 999 c1rec ++ [c1last]) := by
    rw [c1data, show (1000 : Nat) = 999 + 1 from rfl, List.replicate_succ]
    rfl
  rw [hsplit, List.foldl_cons,
    show analyzeRecord ([], []) c1rec = ([("a", "a")], [("a", [("int", 1)])]) from by decide,
    List.foldl_append, c1eagerfold 999 1]
  decide

set_option maxRecDepth 10000 in
/-- The streaming state over c1data: the break fires at record 1000, the
remaining record is only counted, and field b is never analyzed. -/
theorem c1stream_state :
    streamLoop c1data ⟨0, [], [], []⟩ =
      { record_count := 1001, samples := List.replicate 50 c1rec
        all_keys := [("a", "a")], field_types := [("a", [("int", 1000)])] } := by
  have h0 : (⟨0, [], [], []⟩ : StreamState) = c1st 0 := by
    simp [c1st]
  have hsplit : c1data = List.replicate 999 c1rec ++ (c1rec :: [c1last]) := by
    rw [c1data, show (1000 : Nat) = 999 + 1 from rfl, List.replicate_succ',
      List.append_assoc]
    rfl
  rw [h0, hsplit, c1run 999 0 (by omega) _]
  exact c1break

/-- Generic projection: the streaming result schema, as a rewrite rule. -/
theorem stream_schema_proj (data : List JVal) :
    (stream_analyze_array data).schema =
      build_schema_from_types (streamLoop data ⟨0, [], [], []⟩).all_keys
        (streamLoop data ⟨0, [], [], []⟩).field_types
        (min (streamLoop data ⟨0, [], [], []⟩).record_count 1000) := rfl

/-- Generic projection: the eager result schema on nonempty data. -/
theorem eager_schema_proj (data : List JVal) (h : data.isEmpty = false) :
    (analyze_array data).schema =
      build_schema_from_types (List.foldl analyzeRecord ([], []) data).1
        (List.foldl analyzeRecord ([], []) data).2 data.length := by
  unfold analyze_array
  rw [h]
  rfl

set_option maxRecDepth 10000 in
/-- C1 counterexample: on the 1001-record array c1data the streaming
mode stops analyzing after record 1000 (once 50 samples are held), so
its schema lacks the field b that only the last record carries, while
the eager mode sees it: the two schemas differ, refuting mode
invariance; a fortiori the streaming schema of a long array is not built
from all records. -/
theorem C1_counterexample :
    (stream_analyze_array c1data).schema.map Prod.fst = ["a"] ∧
    (analyze_array c1data).schema.map Prod.fst = ["a", "b"] ∧
    (stream_analyze_array c1data).schema ≠ (analyze_array c1data).schema := by
  have hs : (stream_analyze_array c1data).schema =
      build_schema_from_types [("a", "a")] [("a", [("int", 1000)])] (min 1001 1000) := by
    rw [stream_schema_proj, c1stream_state]
  have hlen : c1data.length = 1001 := by
    rw [c1data, List.length_append, List.length_replicate, List.length_singleton]
  have hemp : c1data.isEmpty = false := by
    rw [c1data]
    rfl
  have he : (analyze_array c1data).schema =
      build_schema_from_types [("a", "a"), ("b", "b")]
        [("a", [("int", 1001)]), ("b", [("int", 1)])] 1001 := by
    rw [eager_schema_proj c1data hemp, c1eager_acc, hlen]
  refine ⟨?_, ?_, ?_⟩
  · rw [hs]; decide
  · rw [he]; decide
  · rw [hs, he]; decide
